import Mathlib

/-!
Verification of `kedro_viz/api/rest/responses.py`.

The development embeds the response data model (the pydantic classes), the
default-response assembler `get_default_response`, and the JSON encoder
`EnhancedORJSONResponse.encode_to_human_readable` (a call to `orjson.dumps`
with `OPT_INDENT_2 | OPT_NON_STR_KEYS | OPT_SERIALIZE_NUMPY`).

JSON documents are modelled by `JValue`; mapping keys by `JKey` (orjson
accepts non-string keys, so a key is a string or an integer); numpy numeric
matrices by the dedicated `JValue.numpy` constructor, since orjson serializes
them only under `OPT_SERIALIZE_NUMPY`.  `orjson_dumps` models `orjson.dumps`
for the three option bits used by the source module: it fails on a non-string
key unless `OPT_NON_STR_KEYS` is set, fails on a numpy value unless
`OPT_SERIALIZE_NUMPY` is set, and pretty-prints with two-space indentation
exactly when `OPT_INDENT_2` is set (otherwise output is compact).
-/

namespace KedroViz

/-- A mapping key as orjson accepts it: a string, or (under
`OPT_NON_STR_KEYS`) an integer that is coerced to its decimal string. -/

inductive JKey where
  | str (s : String)
  | int (n : Int)
deriving DecidableEq, Repr

/-- A JSON-serializable value.  `numpy` models a numpy integer matrix, which
orjson serializes directly (without prior conversion to nested lists) when
`OPT_SERIALIZE_NUMPY` is set. -/

inductive JValue where
  | null
  | bool (b : Bool)
  | int (n : Int)
  | str (s : String)
  | arr (elems : List JValue)
  | obj (entries : List (JKey × JValue))
  | numpy (rows : List (List Int))

/-- A Python `Dict` field value as it reaches the encoder. -/

abbrev JDict := List (JKey × JValue)

mutual

/-- Decidable equality on JSON values (the nested inductive prevents deriving). -/
def decEqJValue : (a b : JValue) → Decidable (a = b)
  | .null, .null => .isTrue rfl
  | .bool x, .bool y =>
      if h : x = y then .isTrue (by rw [h]) else .isFalse (fun hh => h (JValue.bool.inj hh))
  | .int x, .int y =>
      if h : x = y then .isTrue (by rw [h]) else .isFalse (fun hh => h (JValue.int.inj hh))
  | .str x, .str y =>
      if h : x = y then .isTrue (by rw [h]) else .isFalse (fun hh => h (JValue.str.inj hh))
  | .arr x, .arr y =>
      match decEqJList x y with
      | .isTrue h => .isTrue (by rw [h])
      | .isFalse h => .isFalse (fun hh => h (JValue.arr.inj hh))
  | .obj x, .obj y =>
      match decEqJEntries x y with
      | .isTrue h => .isTrue (by rw [h])
      | .isFalse h => .isFalse (fun hh => h (JValue.obj.inj hh))
  | .numpy x, .numpy y =>
      if h : x = y then .isTrue (by rw [h]) else .isFalse (fun hh => h (JValue.numpy.inj hh))
  | .null, .bool _ | .null, .int _ | .null, .str _ | .null, .arr _ | .null, .obj _
  | .null, .numpy _ =>
      .isFalse (fun h => JValue.noConfusion h)
  | .bool _, .null | .bool _, .int _ | .bool _, .str _ | .bool _, .arr _ | .bool _, .obj _
  | .bool _, .numpy _ =>
      .isFalse (fun h => JValue.noConfusion h)
  | .int _, .null | .int _, .bool _ | .int _, .str _ | .int _, .arr _ | .int _, .obj _
  | .int _, .numpy _ =>
      .isFalse (fun h => JValue.noConfusion h)
  | .str _, .null | .str _, .bool _ | .str _, .int _ | .str _, .arr _ | .str _, .obj _
  | .str _, .numpy _ =>
      .isFalse (fun h => JValue.noConfusion h)
  | .arr _, .null | .arr _, .bool _ | .arr _, .int _ | .arr _, .str _ | .arr _, .obj _
  | .arr _, .numpy _ =>
      .isFalse (fun h => JValue.noConfusion h)
  | .obj _, .null | .obj _, .bool _ | .obj _, .int _ | .obj _, .str _ | .obj _, .arr _
  | .obj _, .numpy _ =>
      .isFalse (fun h => JValue.noConfusion h)
  | .numpy _, .null | .numpy _, .bool _ | .numpy _, .int _ | .numpy _, .str _
  | .numpy _, .arr _ | .numpy _, .obj _ =>
      .isFalse (fun h => JValue.noConfusion h)

/-- Decidable equality on lists of JSON values. -/
def decEqJList : (a b : List JValue) → Decidable (a = b)
  | [], [] => .isTrue rfl
  | [], _ :: _ => .isFalse (fun h => List.noConfusion h)
  | _ :: _, [] => .isFalse (fun h => List.noConfusion h)
  | x :: xs, y :: ys =>
      match decEqJValue x y with
      | .isFalse h => .isFalse (fun hh => h (List.cons.inj hh).1)
      | .isTrue h1 =>
          match decEqJList xs ys with
          | .isTrue h2 => .isTrue (by rw [h1, h2])
          | .isFalse h2 => .isFalse (fun hh => h2 (List.cons.inj hh).2)

/-- Decidable equality on mapping entry lists. -/
def decEqJEntries : (a b : List (JKey × JValue)) → Decidable (a = b)
  | [], [] => .isTrue rfl
  | [], _ :: _ => .isFalse (fun h => List.noConfusion h)
  | _ :: _, [] => .isFalse (fun h => List.noConfusion h)
  | (k1, v1) :: xs, (k2, v2) :: ys =>
      if hk : k1 = k2 then
        match decEqJValue v1 v2 with
        | .isFalse h => .isFalse (fun hh => h (congrArg Prod.snd (List.cons.inj hh).1))
        | .isTrue h1 =>
            match decEqJEntries xs ys with
            | .isTrue h2 => .isTrue (by rw [hk, h1, h2])
            | .isFalse h2 => .isFalse (fun hh => h2 (List.cons.inj hh).2)
      else .isFalse (fun hh => hk (congrArg Prod.fst (List.cons.inj hh).1))

end

instance : DecidableEq JValue := decEqJValue

/-! ### Characters: digits, hex, escaping, padding -/

/-- The decimal digit character for `d < 10`. -/

def digitChar (d : Nat) : Char := Char.ofNat (48 + d)

/-- Lower-case hexadecimal digit character for `d < 16`. -/

def hexChar (d : Nat) : Char :=
  if d < 10 then Char.ofNat (48 + d) else Char.ofNat (87 + d)

/-- Decimal digit characters of `n`, most significant first, onto `acc`. -/

def natChars (n : Nat) (acc : List Char) : List Char :=
  if n < 10 then digitChar (n % 10) :: acc
  else natChars (n / 10) (digitChar (n % 10) :: acc)
termination_by n
decreasing_by exact Nat.div_lt_self (by omega) (by omega)

/-- Decimal character run of an integer: sign, then digits. -/

def intChars (i : Int) : List Char :=
  if i < 0 then '-' :: natChars i.natAbs [] else natChars i.natAbs []

/-- JSON escape of one character, as orjson emits it. -/

def escChar (c : Char) : List Char :=
  if c = '"' then ['\\', '"']
  else if c = '\\' then ['\\', '\\']
  else if c = '\n' then ['\\', 'n']
  else if c = '\t' then ['\\', 't']
  else if c = '\r' then ['\\', 'r']
  else if c.toNat = 8 then ['\\', 'b']
  else if c.toNat = 12 then ['\\', 'f']
  else if c.toNat < 32 then
    ['\\', 'u', '0', '0', hexChar (c.toNat / 16), hexChar (c.toNat % 16)]
  else [c]

/-- Characters of a JSON string literal: quote, escaped body, quote. -/

def strChars (s : String) : List Char :=
  '"' :: (s.data.flatMap escChar ++ ['"'])

/-- Characters of a serialized mapping key: an integer key is coerced to its
canonical (decimal) string form, so it is emitted quoted. -/

def keyChars : JKey → List Char
  | .str s => strChars s
  | .int n => '"' :: (intChars n ++ ['"'])

/-- `n` spaces of indentation. -/

def pad (n : Nat) : List Char := List.replicate n ' '

/-! ### The orjson serializer, for the three option bits the source uses -/

/-- The orjson options appearing in the source module:
`OPT_INDENT_2`, `OPT_NON_STR_KEYS`, `OPT_SERIALIZE_NUMPY`. -/

structure OrjsonOpts where
  indent2 : Bool
  nonStrKeys : Bool
  serializeNumpy : Bool

/-- Key/value separator: `": "` when pretty-printing, `":"` when compact. -/

def sepChars (o : OrjsonOpts) : List Char := if o.indent2 then [':', ' '] else [':']

/-- Compact join of already-rendered items with `","`. -/

def joinCompact : List (List Char) → List Char
  | [] => []
  | [x] => x
  | x :: y :: xs => x ++ ',' :: joinCompact (y :: xs)

/-- Indented join: every item starts on its own line at absolute column `k`,
items separated by `",\n"`. -/

def joinIndented (k : Nat) : List (List Char) → List Char
  | [] => []
  | [x] => pad k ++ x
  | x :: y :: xs => pad k ++ x ++ ',' :: '\n' :: joinIndented k (y :: xs)

/-- Wrap rendered items in `l`/`r` brackets.  An empty container is rendered
inline (`[]`, `{}`); otherwise with `OPT_INDENT_2` every item sits on its own
line, two columns deeper than the bracket's nesting depth `d`. -/

def wrapSeq (o : OrjsonOpts) (d : Nat) (l r : Char) (items : List (List Char)) : List Char :=
  match items with
  | [] => [l, r]
  | _ :: _ =>
      if o.indent2 then
        l :: '\n' :: (joinIndented (2 * d + 2) items ++ '\n' :: (pad (2 * d) ++ [r]))
      else l :: (joinCompact items ++ [r])

/-- One numpy matrix row, rendered as a JSON array of integers. -/

def rowChars (o : OrjsonOpts) (d : Nat) (row : List Int) : List Char :=
  wrapSeq o d '[' ']' (row.map intChars)

/-- A numpy integer matrix, rendered directly as nested JSON arrays. -/

def numpyChars (o : OrjsonOpts) (d : Nat) (rows : List (List Int)) : List Char :=
  wrapSeq o d '[' ']' (rows.map (rowChars o (d + 1)))

/-- Serializes one mapping key: a string key always succeeds; an integer key
succeeds, coerced to its decimal string form, only under `OPT_NON_STR_KEYS`. -/

def dumpsKey (o : OrjsonOpts) : JKey → Except String (List Char)
  | .str s => .ok (strChars s)
  | .int n =>
      if o.nonStrKeys then .ok ('"' :: (intChars n ++ ['"']))
      else .error "Dict key must be str"

mutual

/-- `orjson.dumps` body at nesting depth `d`: renders a value, or fails on a
non-string key (without `OPT_NON_STR_KEYS`) or a numpy value (without
`OPT_SERIALIZE_NUMPY`). -/
def dumpsVal (o : OrjsonOpts) (d : Nat) : JValue → Except String (List Char)
  | .null => .ok ['n', 'u', 'l', 'l']
  | .bool true => .ok ['t', 'r', 'u', 'e']
  | .bool false => .ok ['f', 'a', 'l', 's', 'e']
  | .int n => .ok (intChars n)
  | .str s => .ok (strChars s)
  | .arr xs =>
      match dumpsElems o (d + 1) xs with
      | .error e => .error e
      | .ok items => .ok (wrapSeq o d '[' ']' items)
  | .obj kvs =>
      match dumpsEntries o (d + 1) kvs with
      | .error e => .error e
      | .ok items => .ok (wrapSeq o d '{' '}' items)
  | .numpy rows =>
      if o.serializeNumpy then .ok (numpyChars o d rows)
      else .error "Type is not JSON serializable: numpy.ndarray"

/-- Renders each array element (at the elements' depth `d`). -/
def dumpsElems (o : OrjsonOpts) (d : Nat) : List JValue → Except String (List (List Char))
  | [] => .ok []
  | x :: xs =>
      match dumpsVal o d x with
      | .error e => .error e
      | .ok c =>
          match dumpsElems o d xs with
          | .error e => .error e
          | .ok cs => .ok (c :: cs)

/-- Renders each mapping entry `key<sep>value` (at the entries' depth `d`).
A non-string key is accepted, coerced to its decimal string, only under
`OPT_NON_STR_KEYS`. -/
def dumpsEntries (o : OrjsonOpts) (d : Nat) :
    List (JKey × JValue) → Except String (List (List Char))
  | [] => .ok []
  | (k, v) :: kvs =>
      match dumpsKey o k with
      | .error e => .error e
      | .ok kc =>
          match dumpsVal o d v with
          | .error e => .error e
          | .ok vc =>
              match dumpsEntries o d kvs with
              | .error e => .error e
              | .ok rest => .ok ((kc ++ sepChars o ++ vc) :: rest)

end

/-- `orjson.dumps(content, option=o)` for the modelled option bits. -/

def orjson_dumps (o : OrjsonOpts) (content : JValue) : Except String String :=
  (dumpsVal o 0 content).map String.mk

/-- `OPT_INDENT_2 | OPT_NON_STR_KEYS | OPT_SERIALIZE_NUMPY`, the option word
passed by `encode_to_human_readable`. -/

def hrOpts : OrjsonOpts := ⟨true, true, true⟩

namespace EnhancedORJSONResponse

/-- `EnhancedORJSONResponse.encode_to_human_readable`: encode the given
content to JSON with human-readable formatting, exactly
`orjson.dumps(content, option=OPT_INDENT_2 | OPT_NON_STR_KEYS | OPT_SERIALIZE_NUMPY)`. -/

def encode_to_human_readable (content : JValue) : Except String String :=
  orjson_dumps hrOpts content

end EnhancedORJSONResponse

/-! ### A total renderer for the human-readable option word

At `hrOpts` every constructor of `JValue` serializes successfully, so the
encoder is also describable as a total function; `dumpsVal_hr` proves the
two agree. -/

mutual

/-- Total human-readable rendering (characters) at nesting depth `d`. -/
def hrVal (d : Nat) : JValue → List Char
  | .null => ['n', 'u', 'l', 'l']
  | .bool false => ['f', 'a', 'l', 's', 'e']
  | .bool true => ['t', 'r', 'u', 'e']
  | .int n => intChars n
  | .str s => strChars s
  | .arr xs => wrapSeq hrOpts d '[' ']' (hrElems (d + 1) xs)
  | .obj kvs => wrapSeq hrOpts d '{' '}' (hrEntries (d + 1) kvs)
  | .numpy rows => numpyChars hrOpts d rows

/-- Total human-readable rendering of array elements. -/
def hrElems (d : Nat) : List JValue → List (List Char)
  | [] => []
  | x :: xs => hrVal d x :: hrElems d xs

/-- Total human-readable rendering of mapping entries. -/
def hrEntries (d : Nat) : List (JKey × JValue) → List (List Char)
  | [] => []
  | (k, v) :: kvs => (keyChars k ++ ':' :: ' ' :: hrVal d v) :: hrEntries d kvs

end

/-! ### The specification's view: a list of lines, children two spaces deeper

`specVal` renders a value as the multi-line layout the specification
describes: the members of a non-empty container each start on their own line,
shifted right by exactly two spaces relative to the enclosing brackets
(`indentTwo`), integer mapping keys appear as their quoted decimal strings,
and a numpy matrix appears as nested JSON arrays.  `absJoin` turns such a
relative layout into one character stream at a given absolute indentation. -/

/-- Append `","` to the last line of a block. -/

def commaLast : List (List Char) → List (List Char)
  | [] => []
  | [l] => [l ++ [',']]
  | l :: m :: ls => l :: commaLast (m :: ls)

/-- Concatenate blocks of lines; every block except the last ends with `","`. -/

def sepBlocks : List (List (List Char)) → List (List Char)
  | [] => []
  | [b] => b
  | b :: c :: bs => commaLast b ++ sepBlocks (c :: bs)

/-- Every line shifted right by exactly two spaces. -/

def indentTwo (ls : List (List Char)) : List (List Char) :=
  ls.map (fun l => ' ' :: ' ' :: l)

/-- Prefix a rendered key (and `": "`) onto the first line of a value block. -/

def prependKey (kc : List Char) : List (List Char) → List (List Char)
  | [] => [kc ++ [':', ' ']]
  | l :: ls => (kc ++ ':' :: ' ' :: l) :: ls

/-- Lines of a container: empty inline, otherwise the separated member blocks
sit between the bracket lines, two spaces deeper. -/

def specWrap (l r : Char) (blocks : List (List (List Char))) : List (List Char) :=
  match blocks with
  | [] => [[l, r]]
  | _ :: _ => [l] :: (indentTwo (sepBlocks blocks) ++ [[r]])

/-- Lines of one numpy matrix row: an array whose members are integers. -/

def specRow (row : List Int) : List (List Char) :=
  specWrap '[' ']' ((row.map intChars).map (fun c => [c]))

mutual

/-- The specification's line-by-line human-readable rendering. -/
def specVal : JValue → List (List Char)
  | .null => [['n', 'u', 'l', 'l']]
  | .bool true => [['t', 'r', 'u', 'e']]
  | .bool false => [['f', 'a', 'l', 's', 'e']]
  | .int n => [intChars n]
  | .str s => [strChars s]
  | .arr xs => specWrap '[' ']' (specElems xs)
  | .obj kvs => specWrap '{' '}' (specEntries kvs)
  | .numpy rows => specWrap '[' ']' (rows.map specRow)

/-- Line blocks of the array elements. -/
def specElems : List JValue → List (List (List Char))
  | [] => []
  | x :: xs => specVal x :: specElems xs

/-- Line blocks of the mapping entries, each key coerced by `keyChars`. -/
def specEntries : List (JKey × JValue) → List (List (List Char))
  | [] => []
  | (k, v) :: kvs => prependKey (keyChars k) (specVal v) :: specEntries kvs

end

/-- Join relative lines into one character stream: the first line is placed by
the caller, every further line starts on a new line at absolute column `n`. -/

def absJoin (n : Nat) : List (List Char) → List Char
  | [] => []
  | l :: ls => l ++ ls.flatMap (fun x => '\n' :: (pad n ++ x))

/-- Join lines with newlines (top level: absolute indentation zero). -/

def unlines : List (List Char) → List Char
  | [] => []
  | l :: ls => l ++ ls.flatMap (fun x => '\n' :: x)

/-! ### Decoding: a JSON reader over character lists

`decode` is modelled from the spec: a standard JSON parser (whitespace
tolerant, escapes, integers, arrays, string-keyed objects), used to state the
round-trip contract `decode (encode x) = x`. -/

/-- JSON insignificant whitespace. -/

def isWsC (c : Char) : Bool := c = ' ' || c = '\n' || c = '\t' || c = '\r'

/-- Decimal digit test. -/

def isDigitC (c : Char) : Bool := 48 ≤ c.toNat && c.toNat ≤ 57

/-- Drop leading insignificant whitespace. -/

def dropWs : List Char → List Char
  | [] => []
  | c :: cs => if isWsC c then dropWs cs else c :: cs

/-- Inputs that cannot extend a decimal token: empty, or headed by a
non-digit.  Every position following a rendered value qualifies. -/

def noDigitHead : List Char → Bool
  | [] => true
  | c :: _ => !isDigitC c

/-- Longest digit run at the head of the input, and the remainder. -/

def grabDigits : List Char → List Char × List Char
  | [] => ([], [])
  | c :: cs =>
      if isDigitC c then
        match grabDigits cs with
        | (ds, r) => (c :: ds, r)
      else ([], c :: cs)

/-- Value of a digit run, most significant first. -/

def digitsNat (ds : List Char) : Nat :=
  ds.foldl (fun a c => a * 10 + (c.toNat - 48)) 0

/-- Decimal integer token: optional minus sign, then a nonempty digit run. -/

def parseIntTok : List Char → Option (Int × List Char)
  | [] => none
  | c :: cs =>
      if c = '-' then
        match grabDigits cs with
        | ([], _) => none
        | (d :: ds, r) => some (-(digitsNat (d :: ds) : Int), r)
      else
        match grabDigits (c :: cs) with
        | ([], _) => none
        | (d :: ds, r) => some ((digitsNat (d :: ds) : Int), r)

/-- Hexadecimal digit value. -/

def hexValC (c : Char) : Option Nat :=
  if 48 ≤ c.toNat && c.toNat ≤ 57 then some (c.toNat - 48)
  else if 97 ≤ c.toNat && c.toNat ≤ 102 then some (c.toNat - 87)
  else if 65 ≤ c.toNat && c.toNat ≤ 70 then some (c.toNat - 55)
  else none

/-- The character named by a simple escape. -/

def unescC : Char → Option Char
  | 'n' => some '\n'
  | 't' => some '\t'
  | 'r' => some '\r'
  | 'b' => some (Char.ofNat 8)
  | 'f' => some (Char.ofNat 12)
  | '"' => some '"'
  | '\\' => some '\\'
  | '/' => some '/'
  | _ => none

/-- Body of a string literal after the opening quote, accumulator reversed. -/

def parseStrBody (acc : List Char) : List Char → Option (List Char × List Char)
  | '"' :: rest => some (acc.reverse, rest)
  | '\\' :: 'u' :: a :: b :: c :: d :: rest =>
      match hexValC a, hexValC b, hexValC c, hexValC d with
      | some va, some vb, some vc, some vd =>
          parseStrBody (Char.ofNat (((va * 16 + vb) * 16 + vc) * 16 + vd) :: acc) rest
      | _, _, _, _ => none
  | '\\' :: e :: rest =>
      match unescC e with
      | some ch => parseStrBody (ch :: acc) rest
      | none => none
  | c :: rest => parseStrBody (c :: acc) rest
  | [] => none

/-! ### The JSON reader -/

mutual

/-- Read one JSON value.  `fuel` only forces termination; every successful
parse below is supplied enough of it. -/
def parseVal : Nat → List Char → Option (JValue × List Char)
  | 0, _ => none
  | fuel + 1, cs =>
      match dropWs cs with
      | 'n' :: 'u' :: 'l' :: 'l' :: r => some (.null, r)
      | 't' :: 'r' :: 'u' :: 'e' :: r => some (.bool true, r)
      | 'f' :: 'a' :: 'l' :: 's' :: 'e' :: r => some (.bool false, r)
      | '"' :: r =>
          match parseStrBody [] r with
          | some (body, r2) => some (.str (String.mk body), r2)
          | none => none
      | '[' :: r =>
          match dropWs r with
          | [] => none
          | c :: r2 =>
              if c = ']' then some (.arr [], r2)
              else
                match parseElems fuel (c :: r2) with
                | some (es, r3) => some (.arr es, r3)
                | none => none
      | '{' :: r =>
          match dropWs r with
          | [] => none
          | c :: r2 =>
              if c = '}' then some (.obj [], r2)
              else
                match parseEntries fuel (c :: r2) with
                | some (kvs, r3) => some (.obj kvs, r3)
                | none => none
      | c :: r =>
          if c = '-' || isDigitC c then
            match parseIntTok (c :: r) with
            | some (n, r2) => some (.int n, r2)
            | none => none
          else none
      | [] => none

/-- Read one or more comma-separated array elements up to `]`. -/
def parseElems : Nat → List Char → Option (List JValue × List Char)
  | 0, _ => none
  | fuel + 1, cs =>
      match parseVal fuel cs with
      | none => none
      | some (v, r) =>
          match dropWs r with
          | [] => none
          | c :: r2 =>
              if c = ',' then
                match parseElems fuel r2 with
                | some (vs, r3) => some (v :: vs, r3)
                | none => none
              else if c = ']' then some ([v], r2)
              else none

/-- Read one or more comma-separated `"key": value` members up to `}`. -/
def parseEntries : Nat → List Char → Option (List (JKey × JValue) × List Char)
  | 0, _ => none
  | fuel + 1, cs =>
      match dropWs cs with
      | [] => none
      | c :: r =>
          if c = '"' then
            match parseStrBody [] r with
            | none => none
            | some (key, r1) =>
                match dropWs r1 with
                | [] => none
                | c2 :: r2 =>
                    if c2 = ':' then
                      match parseVal fuel r2 with
                      | none => none
                      | some (v, r3) =>
                          match dropWs r3 with
                          | [] => none
                          | c3 :: r4 =>
                              if c3 = ',' then
                                match parseEntries fuel r4 with
                                | some (kvs, r5) =>
                                    some ((.str (String.mk key), v) :: kvs, r5)
                                | none => none
                              else if c3 = '}' then
                                some ([(.str (String.mk key), v)], r4)
                              else none
                    else none
          else none

end

/-- Read a whole document: one value and trailing whitespace only. -/

def decodeJson (s : String) : Option JValue :=
  match parseVal (s.data.length + 1) s.data with
  | some (v, r) => if dropWs r = [] then some v else none
  | none => none

/-! ### Values the decoder can reproduce -/

/-- Whether a mapping key already is a string. -/

def keyIsStr : JKey → Bool
  | .str _ => true
  | .int _ => false

mutual

/-- A value whose serialized form decodes back to it exactly: only string
keys (an integer key is coerced, so it comes back as a string) and no numpy
values (a matrix comes back as nested lists). -/
def isPlain : JValue → Bool
  | .null => true
  | .bool _ => true
  | .int _ => true
  | .str _ => true
  | .arr xs => plainElems xs
  | .obj kvs => plainEntries kvs
  | .numpy _ => false

/-- All elements plain. -/
def plainElems : List JValue → Bool
  | [] => true
  | x :: xs => isPlain x && plainElems xs

/-- All keys strings and all values plain. -/
def plainEntries : List (JKey × JValue) → Bool
  | [] => true
  | (k, v) :: kvs => keyIsStr k && isPlain v && plainEntries kvs

end

mutual

/-- Fuel needed by the reader: one unit per value plus one per list step. -/
def mVal : JValue → Nat
  | .null => 1
  | .bool _ => 1
  | .int _ => 1
  | .str _ => 1
  | .arr xs => 1 + mElems xs
  | .obj kvs => 1 + mEntries kvs
  | .numpy _ => 1

/-- Fuel needed for the element list. -/
def mElems : List JValue → Nat
  | [] => 0
  | x :: xs => 1 + mVal x + mElems xs

/-- Fuel needed for the entry list. -/
def mEntries : List (JKey × JValue) → Nat
  | [] => 0
  | (_, v) :: kvs => 1 + mVal v + mEntries kvs

end

/-! ### Stream decomposition of rendered containers -/

/-- What follows the first array element in the rendered stream: either the
closing line, or a comma, a newline, indentation, and the next element. -/

def elemsTail (d : Nat) (rest : List Char) : List JValue → List Char
  | [] => '\n' :: (pad (2 * d) ++ (']' :: rest))
  | y :: ys => ',' :: '\n' :: (pad (2 * d + 2) ++ (hrVal (d + 1) y ++ elemsTail d rest ys))

/-- What follows the first object member in the rendered stream. -/

def entriesTail (d : Nat) (rest : List Char) : List (JKey × JValue) → List Char
  | [] => '\n' :: (pad (2 * d) ++ ('}' :: rest))
  | (k, v) :: kvs =>
      ',' :: '\n' :: (pad (2 * d + 2)
        ++ (keyChars k ++ ':' :: ' ' :: (hrVal (d + 1) v ++ entriesTail d rest kvs)))

/-! ### What decoding an encoded value yields: the plainified value

Serialization coerces an integer key to its decimal string and writes a numpy
matrix as nested arrays, so decoding reproduces not the original value but
its `plainify` image (the identity exactly on plain values). -/

/-- The key as it reappears after a decode: integer keys become their
canonical decimal strings. -/

def plainKey : JKey → JKey
  | .str s => .str s
  | .int n => .str (String.mk (intChars n))

mutual

/-- The value the decoder reconstructs from the encoder's output. -/
def plainify : JValue → JValue
  | .null => .null
  | .bool b => .bool b
  | .int n => .int n
  | .str s => .str s
  | .arr xs => .arr (plainifyElems xs)
  | .obj kvs => .obj (plainifyEntries kvs)
  | .numpy rows => .arr (rows.map (fun r => .arr (r.map JValue.int)))

/-- Elementwise `plainify`. -/
def plainifyElems : List JValue → List JValue
  | [] => []
  | x :: xs => plainify x :: plainifyElems xs

/-- Entrywise `plainify`, coercing keys. -/
def plainifyEntries : List (JKey × JValue) → List (JKey × JValue)
  | [] => []
  | (k, v) :: kvs => (plainKey k, plainify v) :: plainifyEntries kvs

end

/-- Decode the encoder's output (an error never decodes). -/

def decodeEncoded (e : Except String String) : Option JValue :=
  match e with
  | .ok s => decodeJson s
  | .error _ => none

/-! ### The response data model of `kedro_viz.api.rest.responses` -/

/-- `APIErrorMessage`: the generic error shape. -/

structure APIErrorMessage where
  message : String
deriving DecidableEq

/-- `TaskNodeAPIResponse`: the base graph-node fields (`id`, `name`, `tags`,
`pipelines`, `type`, optional `modular_pipelines`) plus `parameters`. -/

structure TaskNodeAPIResponse where
  id : String
  name : String
  tags : List String
  pipelines : List String
  type : String
  modular_pipelines : Option (List String)
  parameters : JDict
deriving DecidableEq

/-- `DataNodeAPIResponse`: the base graph-node fields plus the optional
`layer`, `dataset_type` and `stats`. -/

structure DataNodeAPIResponse where
  id : String
  name : String
  tags : List String
  pipelines : List String
  type : String
  modular_pipelines : Option (List String)
  layer : Option String
  dataset_type : Option String
  stats : Option JDict
deriving DecidableEq

/-- `NodeAPIResponse = Union[TaskNodeAPIResponse, DataNodeAPIResponse]`. -/

inductive NodeAPIResponse where
  | task (t : TaskNodeAPIResponse)
  | data (d : DataNodeAPIResponse)
deriving DecidableEq

/-- `TaskNodeMetadataAPIResponse`: `inputs`/`outputs` are required, the rest
optional with null defaults. -/

structure TaskNodeMetadataAPIResponse where
  code : Option String
  filepath : Option String
  parameters : Option JDict
  inputs : List String
  outputs : List String
  run_command : Option String
deriving DecidableEq

/-- `DataNodeMetadataAPIResponse`. -/

structure DataNodeMetadataAPIResponse where
  filepath : Option String
  type : String
  plot : Option JDict
  image : Option String
  tracking_data : Option JDict
  run_command : Option String
  preview : Option JDict
  stats : Option JDict
deriving DecidableEq

/-- `TranscodedDataNodeMetadataAPIReponse` (name as in the source):
`transcoded_types` is a list because a transcoded dataset may be read back
as several distinct physical types. -/

structure TranscodedDataNodeMetadataAPIReponse where
  filepath : String
  original_type : String
  transcoded_types : List String
  run_command : Option String
  stats : Option JDict
deriving DecidableEq

/-- `ParametersNodeMetadataAPIResponse`. -/

structure ParametersNodeMetadataAPIResponse where
  parameters : JDict
deriving DecidableEq

/-- `NodeMetadataAPIResponse`: a union of four variants. -/

inductive NodeMetadataAPIResponse where
  | task (m : TaskNodeMetadataAPIResponse)
  | data (m : DataNodeMetadataAPIResponse)
  | transcodedData (m : TranscodedDataNodeMetadataAPIReponse)
  | parameters (m : ParametersNodeMetadataAPIResponse)
deriving DecidableEq

/-- `GraphEdgeAPIResponse`. -/

structure GraphEdgeAPIResponse where
  source : String
  target : String
deriving DecidableEq

/-- `NamedEntityAPIResponse`: an id with an optional name, used for tags and
registered pipelines. -/

structure NamedEntityAPIResponse where
  id : String
  name : Option String
deriving DecidableEq

/-- `ModularPipelineChildAPIResponse`. -/

structure ModularPipelineChildAPIResponse where
  id : String
  type : String
deriving DecidableEq

/-- `ModularPipelinesTreeNodeAPIResponse`. -/

structure ModularPipelinesTreeNodeAPIResponse where
  id : String
  name : String
  inputs : List String
  outputs : List String
  children : List ModularPipelineChildAPIResponse
deriving DecidableEq

/-- `ModularPipelinesTreeAPIResponse = Dict[str, ModularPipelinesTreeNodeAPIResponse]`:
the modular-pipeline tree as a mapping keyed by group id. -/

abbrev ModularPipelinesTreeAPIResponse := List (String × ModularPipelinesTreeNodeAPIResponse)

/-- `GraphAPIResponse`: the aggregate graph response. -/

structure GraphAPIResponse where
  nodes : List NodeAPIResponse
  edges : List GraphEdgeAPIResponse
  layers : List String
  tags : List NamedEntityAPIResponse
  pipelines : List NamedEntityAPIResponse
  modular_pipelines : ModularPipelinesTreeAPIResponse
  selected_pipeline : String
deriving DecidableEq

/-- The id-carrying registered-pipeline object returned by
`data_access_manager.get_default_selected_pipeline()`. -/

structure RegisteredPipeline where
  id : String

/-- The read interface of the external `data_access_manager` collaborator, as
used by the source module. -/

structure DataAccessManager where
  get_default_selected_pipeline : RegisteredPipeline
  get_nodes_for_registered_pipeline : String → List NodeAPIResponse
  get_edges_for_registered_pipeline : String → List GraphEdgeAPIResponse
  get_sorted_layers_for_registered_pipeline : String → List String
  create_modular_pipelines_tree_for_registered_pipeline :
    String → ModularPipelinesTreeAPIResponse
  tags_as_list : List NamedEntityAPIResponse
  registered_pipelines_as_list : List NamedEntityAPIResponse

/-- `get_default_response`: the default response for `/api/main`, assembled
for the index's designated default pipeline id. -/

def get_default_response (dam : DataAccessManager) : GraphAPIResponse :=
  let default_selected_pipeline_id := dam.get_default_selected_pipeline.id
  { nodes := dam.get_nodes_for_registered_pipeline default_selected_pipeline_id
    edges := dam.get_edges_for_registered_pipeline default_selected_pipeline_id
    tags := dam.tags_as_list
    layers := dam.get_sorted_layers_for_registered_pipeline default_selected_pipeline_id
    pipelines := dam.registered_pipelines_as_list
    modular_pipelines :=
      dam.create_modular_pipelines_tree_for_registered_pipeline default_selected_pipeline_id
    selected_pipeline := default_selected_pipeline_id }

/-- Modelled from the spec: the selected-pipeline response endpoint is not in
the source module (only `get_default_response` is); per the spec it must fail
with a not-found error, never a partially-populated aggregate, when the
requested pipeline id is absent from the index, and otherwise assembles the
same aggregate for that id. -/

def get_selected_pipeline_response (dam : DataAccessManager) (pipeline_id : String) :
    Except APIErrorMessage GraphAPIResponse :=
  if (dam.registered_pipelines_as_list.map NamedEntityAPIResponse.id).contains pipeline_id
  then
    .ok
      { nodes := dam.get_nodes_for_registered_pipeline pipeline_id
        edges := dam.get_edges_for_registered_pipeline pipeline_id
        tags := dam.tags_as_list
        layers := dam.get_sorted_layers_for_registered_pipeline pipeline_id
        pipelines := dam.registered_pipelines_as_list
        modular_pipelines :=
          dam.create_modular_pipelines_tree_for_registered_pipeline pipeline_id
        selected_pipeline := pipeline_id }
  else .error { message := "Pipeline not found" }

/-- Modelled from the spec: what the index records about one dataset — its
file path, its nominal kind, and the list of registered concrete read-back
types (more than one exactly for a transcoded dataset). -/

structure DataSetRegistration where
  filepath : String
  nominal_type : String
  registered_types : List String
  run_command : Option String
  stats : Option JDict

/-- Modelled from the spec: metadata for a dataset node.  The discriminant is
whether the dataset has more than one registered concrete read-back type —
then the transcoded variant carries them all — not the dataset's nominal
kind. -/

def get_dataset_metadata (ds : DataSetRegistration) : NodeMetadataAPIResponse :=
  if 2 ≤ ds.registered_types.length then
    .transcodedData
      { filepath := ds.filepath
        original_type := ds.nominal_type
        transcoded_types := ds.registered_types
        run_command := ds.run_command
        stats := ds.stats }
  else
    .data
      { filepath := some ds.filepath
        type := ds.nominal_type
        plot := none
        image := none
        tracking_data := none
        run_command := ds.run_command
        preview := none
        stats := ds.stats }

/-- Construction of `TaskNodeMetadataAPIResponse` as pydantic validates its
keyword arguments: `inputs` and `outputs` are required, so validation fails
when either is absent; `code`, `filepath`, `parameters` and `run_command`
are optional and default to null. -/

def TaskNodeMetadataAPIResponse.validate (code filepath : Option String)
    (parameters : Option JDict) (inputs outputs : Option (List String))
    (run_command : Option String) : Except String TaskNodeMetadataAPIResponse :=
  match inputs, outputs with
  | some i, some o =>
      .ok
        { code := code
          filepath := filepath
          parameters := parameters
          inputs := i
          outputs := o
          run_command := run_command }
  | _, _ => .error "field required"

/-! ### Serialization of the response models

pydantic emits every declared field, in declaration order; an optional field
whose value is absent is emitted as null, never omitted. -/

/-- An optional string field value: null when absent. -/

def optStrToJson : Option String → JValue
  | none => .null
  | some s => .str s

/-- A list-of-strings field value. -/

def strListToJson (l : List String) : JValue := .arr (l.map JValue.str)

/-- An optional list-of-strings field value: null when absent. -/

def optStrListToJson : Option (List String) → JValue
  | none => .null
  | some l => strListToJson l

/-- An optional mapping field value: null when absent. -/

def optDictToJson : Option JDict → JValue
  | none => .null
  | some d => .obj d

/-- A task node record: the six base fields then `parameters`. -/

def taskNodeToJson (t : TaskNodeAPIResponse) : JValue :=
  .obj [(.str "id", .str t.id), (.str "name", .str t.name),
        (.str "tags", strListToJson t.tags), (.str "pipelines", strListToJson t.pipelines),
        (.str "type", .str t.type),
        (.str "modular_pipelines", optStrListToJson t.modular_pipelines),
        (.str "parameters", .obj t.parameters)]

/-- A data node record: the six base fields then `layer`, `dataset_type`,
`stats` (null when absent, never omitted). -/

def dataNodeToJson (dn : DataNodeAPIResponse) : JValue :=
  .obj [(.str "id", .str dn.id), (.str "name", .str dn.name),
        (.str "tags", strListToJson dn.tags), (.str "pipelines", strListToJson dn.pipelines),
        (.str "type", .str dn.type),
        (.str "modular_pipelines", optStrListToJson dn.modular_pipelines),
        (.str "layer", optStrToJson dn.layer),
        (.str "dataset_type", optStrToJson dn.dataset_type),
        (.str "stats", optDictToJson dn.stats)]

/-- A polymorphic node record. -/

def nodeToJson : NodeAPIResponse → JValue
  | .task t => taskNodeToJson t
  | .data d => dataNodeToJson d

/-- An edge record. -/

def edgeToJson (e : GraphEdgeAPIResponse) : JValue :=
  .obj [(.str "source", .str e.source), (.str "target", .str e.target)]

/-- A named-entity record. -/

def namedToJson (x : NamedEntityAPIResponse) : JValue :=
  .obj [(.str "id", .str x.id), (.str "name", optStrToJson x.name)]

/-- A modular-pipeline child record. -/

def childToJson (c : ModularPipelineChildAPIResponse) : JValue :=
  .obj [(.str "id", .str c.id), (.str "type", .str c.type)]

/-- A modular-pipeline tree-node record. -/

def treeNodeToJson (t : ModularPipelinesTreeNodeAPIResponse) : JValue :=
  .obj [(.str "id", .str t.id), (.str "name", .str t.name),
        (.str "inputs", strListToJson t.inputs), (.str "outputs", strListToJson t.outputs),
        (.str "children", .arr (t.children.map childToJson))]

/-- The aggregate graph response record, fields in declaration order. -/

def graphToJson (g : GraphAPIResponse) : JValue :=
  .obj [(.str "nodes", .arr (g.nodes.map nodeToJson)),
        (.str "edges", .arr (g.edges.map edgeToJson)),
        (.str "layers", strListToJson g.layers),
        (.str "tags", .arr (g.tags.map namedToJson)),
        (.str "pipelines", .arr (g.pipelines.map namedToJson)),
        (.str "modular_pipelines",
          .obj (g.modular_pipelines.map (fun p => (JKey.str p.1, treeNodeToJson p.2)))),
        (.str "selected_pipeline", .str g.selected_pipeline)]

/-! ### Structural decoding of the response models -/

/-- Expect a string. -/

def asStr : JValue → Option String
  | .str s => some s
  | _ => none

/-- Expect an array of strings. -/

def asStrList : JValue → Option (List String)
  | .arr xs => xs.mapM asStr
  | _ => none

/-- Expect a string or null. -/

def asOptStr : JValue → Option (Option String)
  | .null => some none
  | .str s => some (some s)
  | _ => none

/-- Expect an array of strings or null. -/

def asOptStrList : JValue → Option (Option (List String))
  | .null => some none
  | .arr xs => (xs.mapM asStr).map some
  | _ => none

/-- Expect a mapping or null. -/

def asOptDict : JValue → Option (Option JDict)
  | .null => some none
  | .obj kvs => some (some kvs)
  | _ => none

/-- Decode a task node record (exactly the serialized shape). -/

def taskNodeFromJson : JValue → Option TaskNodeAPIResponse
  | .obj [(.str "id", .str i), (.str "name", .str nm), (.str "tags", tg),
          (.str "pipelines", pl), (.str "type", .str ty),
          (.str "modular_pipelines", mp), (.str "parameters", .obj ps)] => do
      let tags ← asStrList tg
      let pipelines ← asStrList pl
      let mps ← asOptStrList mp
      some { id := i, name := nm, tags := tags, pipelines := pipelines, type := ty,
             modular_pipelines := mps, parameters := ps }
  | _ => none

/-- Decode a data node record (exactly the serialized shape). -/

def dataNodeFromJson : JValue → Option DataNodeAPIResponse
  | .obj [(.str "id", .str i), (.str "name", .str nm), (.str "tags", tg),
          (.str "pipelines", pl), (.str "type", .str ty),
          (.str "modular_pipelines", mp), (.str "layer", ly),
          (.str "dataset_type", dt), (.str "stats", st)] => do
      let tags ← asStrList tg
      let pipelines ← asStrList pl
      let mps ← asOptStrList mp
      let layer ← asOptStr ly
      let dtype ← asOptStr dt
      let stats ← asOptDict st
      some { id := i, name := nm, tags := tags, pipelines := pipelines, type := ty,
             modular_pipelines := mps, layer := layer, dataset_type := dtype,
             stats := stats }
  | _ => none

/-- Decode a polymorphic node record: try the task shape, then the data
shape (as pydantic tries the union members in order). -/

def nodeFromJson (v : JValue) : Option NodeAPIResponse :=
  match taskNodeFromJson v with
  | some t => some (.task t)
  | none =>
      match dataNodeFromJson v with
      | some d => some (.data d)
      | none => none

/-- Decode an edge record. -/

def edgeFromJson : JValue → Option GraphEdgeAPIResponse
  | .obj [(.str "source", .str s), (.str "target", .str t)] =>
      some { source := s, target := t }
  | _ => none

/-- Decode a named-entity record. -/

def namedFromJson : JValue → Option NamedEntityAPIResponse
  | .obj [(.str "id", .str i), (.str "name", nm)] => do
      let name ← asOptStr nm
      some { id := i, name := name }
  | _ => none

/-- Decode a modular-pipeline child record. -/

def childFromJson : JValue → Option ModularPipelineChildAPIResponse
  | .obj [(.str "id", .str i), (.str "type", .str ty)] => some { id := i, type := ty }
  | _ => none

/-- Decode a modular-pipeline tree-node record. -/

def treeNodeFromJson : JValue → Option ModularPipelinesTreeNodeAPIResponse
  | .obj [(.str "id", .str i), (.str "name", .str nm), (.str "inputs", ins),
          (.str "outputs", outs), (.str "children", .arr ch)] => do
      let inputs ← asStrList ins
      let outputs ← asStrList outs
      let children ← ch.mapM childFromJson
      some { id := i, name := nm, inputs := inputs, outputs := outputs,
             children := children }
  | _ => none

/-- Decode one tree mapping entry: a string key and a tree-node value. -/

def treeEntryFromJson : JKey × JValue → Option (String × ModularPipelinesTreeNodeAPIResponse)
  | (.str s, tv) => (treeNodeFromJson tv).map (fun t => (s, t))
  | (.int _, _) => none

/-- Decode the aggregate graph response record. -/

def graphFromJson : JValue → Option GraphAPIResponse
  | .obj [(.str "nodes", .arr ns), (.str "edges", .arr es), (.str "layers", ls),
          (.str "tags", .arr ts), (.str "pipelines", .arr ps),
          (.str "modular_pipelines", .obj mp), (.str "selected_pipeline", .str sp)] => do
      let nodes ← ns.mapM nodeFromJson
      let edges ← es.mapM edgeFromJson
      let layers ← asStrList ls
      let tags ← ts.mapM namedFromJson
      let pipelines ← ps.mapM namedFromJson
      let tree ← mp.mapM treeEntryFromJson
      some { nodes := nodes, edges := edges, layers := layers, tags := tags,
             pipelines := pipelines, modular_pipelines := tree, selected_pipeline := sp }
  | _ => none

/-- Decode a whole encoded response. -/

def decodeGraphResponse (e : Except String String) : Option GraphAPIResponse :=
  match e with
  | .ok s => (decodeJson s).bind graphFromJson
  | .error _ => none

/-- Whether a graph response survives the encode/decode trip unchanged: all
mapping keys in its `Dict`-typed fields are strings and none of their values
is a numpy array. -/

def graphIsPlain (g : GraphAPIResponse) : Bool := isPlain (graphToJson g)

/-! ### Keys of serialized records -/

/-- The string keys of a serialized record, in emission order. -/

def objKeys : JValue → List String
  | .obj kvs => kvs.filterMap (fun p => match p.1 with | .str s => some s | .int _ => none)
  | _ => []

/-- The value under a string key of a serialized record. -/

def lookupKey (v : JValue) (k : String) : Option JValue :=
  match v with
  | .obj kvs => (kvs.find? (fun p => decide (p.1 = .str k))).map Prod.snd
  | _ => none

/-- A response whose only task node has an integer parameter key. -/

def sampleBadGraph : GraphAPIResponse :=
  { nodes := [.task { id := "n1", name := "split", tags := [], pipelines := ["p"],
                      type := "task", modular_pipelines := some [],
                      parameters := [(JKey.int 1, JValue.null)] }]
    edges := []
    layers := []
    tags := []
    pipelines := [{ id := "p", name := none }]
    modular_pipelines := []
    selected_pipeline := "p" }

/-- `sampleBadGraph` with the integer key coerced to its decimal string —
what the decoder reconstructs from the encoding of `sampleBadGraph`. -/

def sampleCoercedGraph : GraphAPIResponse :=
  { nodes := [.task { id := "n1", name := "split", tags := [], pipelines := ["p"],
                      type := "task", modular_pipelines := some [],
                      parameters := [(JKey.str "1", JValue.null)] }]
    edges := []
    layers := []
    tags := []
    pipelines := [{ id := "p", name := none }]
    modular_pipelines := []
    selected_pipeline := "p" }

/-- A small response with only string keys: it survives the round trip. -/

def samplePlainGraph : GraphAPIResponse :=
  { nodes := [.task { id := "n1", name := "split", tags := ["t"], pipelines := ["p"],
                      type := "task", modular_pipelines := some [],
                      parameters := [(JKey.str "test_size", JValue.int 1)] },
              .data { id := "d1", name := "model_input", tags := [], pipelines := ["p"],
                      type := "data", modular_pipelines := some [], layer := some "primary",
                      dataset_type := some "pandas.CSVDataSet", stats := none }]
    edges := [{ source := "n1", target := "d1" }]
    layers := ["primary"]
    tags := [{ id := "t", name := none }]
    pipelines := [{ id := "p", name := some "Default" }]
    modular_pipelines := [("__root__", { id := "__root__", name := "Root", inputs := [],
                                         outputs := [],
                                         children := [{ id := "n1", type := "task" }] })]
    selected_pipeline := "p" }

/-- A data-access index with one registered pipeline, for concrete instances. -/

def sampleDam : DataAccessManager :=
  { get_default_selected_pipeline := { id := "p" }
    get_nodes_for_registered_pipeline := fun _ => []
    get_edges_for_registered_pipeline := fun _ => []
    get_sorted_layers_for_registered_pipeline := fun _ => []
    create_modular_pipelines_tree_for_registered_pipeline := fun _ => []
    tags_as_list := []
    registered_pipelines_as_list := [{ id := "p", name := none }] }

/-- A dataset registered under two concrete read-back types. -/

def sampleTranscoded : DataSetRegistration :=
  { filepath := "data/01_raw/x.csv"
    nominal_type := "pandas.CSVDataSet"
    registered_types := ["pandas.CSVDataSet", "spark.SparkDataSet"]
    run_command := none
    stats := none }

/-- A data node with no layer, dataset type or stats recorded. -/

def sampleBareDataNode : DataNodeAPIResponse :=
  { id := "d9", name := "bare", tags := [], pipelines := ["p"], type := "data",
    modular_pipelines := none, layer := none, dataset_type := none, stats := none }

/-- Under `OPT_NON_STR_KEYS` every key serializes, to `keyChars`. -/

theorem dumpsKey_hr : ∀ k : JKey, dumpsKey hrOpts k = .ok (keyChars k)
  | .str _ => rfl
  | .int n => by simp [dumpsKey, keyChars, hrOpts]

mutual

/-- With the human-readable option word the serializer is total and agrees
with `hrVal`. -/
theorem dumpsVal_hr (d : Nat) : ∀ v : JValue, dumpsVal hrOpts d v = .ok (hrVal d v)
  | .null => rfl
  | .bool true => rfl
  | .bool false => rfl
  | .int _ => rfl
  | .str _ => rfl
  | .arr xs => by
      simp only [dumpsVal, dumpsElems_hr (d + 1) xs, hrVal]
  | .obj kvs => by
      simp only [dumpsVal, dumpsEntries_hr (d + 1) kvs, hrVal]
  | .numpy rows => by
      simp only [dumpsVal, hrOpts, hrVal, if_true]

/-- With the human-readable option word element serialization is total. -/
theorem dumpsElems_hr (d : Nat) : ∀ xs : List JValue,
    dumpsElems hrOpts d xs = .ok (hrElems d xs)
  | [] => rfl
  | x :: xs => by
      simp only [dumpsElems, dumpsVal_hr d x, dumpsElems_hr d xs, hrElems]

/-- With the human-readable option word entry serialization is total: string
keys pass through, integer keys are coerced. -/
theorem dumpsEntries_hr (d : Nat) : ∀ kvs : List (JKey × JValue),
    dumpsEntries hrOpts d kvs = .ok (hrEntries d kvs)
  | [] => rfl
  | (k, v) :: kvs => by
      simp only [dumpsEntries]
      rw [dumpsKey_hr k, dumpsVal_hr d v, dumpsEntries_hr d kvs]
      simp [hrEntries, sepChars, hrOpts]

end

theorem absJoin_zero (ls : List (List Char)) : absJoin 0 ls = unlines ls := by
  cases ls <;> simp [absJoin, unlines, pad]

theorem pad_add_two (n : Nat) : pad (n + 2) = pad n ++ [' ', ' '] := by
  simp [pad, List.replicate_add]

theorem flatMap_indentTwo (n : Nat) (ls : List (List Char)) :
    (indentTwo ls).flatMap (fun x => '\n' :: (pad n ++ x))
      = ls.flatMap (fun x => '\n' :: (pad (n + 2) ++ x)) := by
  induction ls with
  | nil => rfl
  | cons l ls ih =>
      simp only [indentTwo, List.map_cons, List.flatMap_cons] at *
      rw [ih, pad_add_two]
      simp

/-- Lines of a comma-terminated block, absolutized: the block's stream
followed by the comma. -/

theorem comma_flat (n : Nat) : ∀ (l : List Char) (ls : List (List Char)),
    (commaLast (l :: ls)).flatMap (fun x => '\n' :: (pad n ++ x))
      = '\n' :: (pad n ++ (absJoin n (l :: ls) ++ [',']))
  | l, [] => by simp [commaLast, absJoin]
  | l, m :: ls => by
      have ih := comma_flat n m ls
      simp only [commaLast, List.flatMap_cons, ih]
      simp [absJoin]

/-- Separated blocks, absolutized, agree with the indented join of the
absolutized blocks. -/

theorem sep_join (n : Nat) : ∀ (b : List (List Char)) (bs : List (List (List Char))),
    b ≠ [] → (∀ x ∈ bs, x ≠ []) →
    (sepBlocks (b :: bs)).flatMap (fun x => '\n' :: (pad n ++ x))
      = '\n' :: joinIndented n ((b :: bs).map (absJoin n))
  | [], _, hb, _ => absurd rfl hb
  | l :: ls, [], _, _ => by
      simp [sepBlocks, joinIndented, absJoin]
  | l :: ls, c :: bs, _, hbs => by
      have ih := sep_join n c bs (hbs c (by simp)) (fun x hx => hbs x (by simp [hx]))
      simp only [sepBlocks, List.flatMap_append, comma_flat n l ls, ih,
        List.map_cons, joinIndented]
      simp

theorem absJoin_cons (n : Nat) (l : List Char) (ls : List (List Char)) :
    absJoin n (l :: ls) = l ++ ls.flatMap (fun x => '\n' :: (pad n ++ x)) := rfl

theorem specWrap_ne_nil (l r : Char) (blocks : List (List (List Char))) :
    specWrap l r blocks ≠ [] := by
  cases blocks <;> simp [specWrap]

theorem prependKey_ne_nil (kc : List Char) (b : List (List Char)) :
    prependKey kc b ≠ [] := by
  cases b <;> simp [prependKey]

theorem specVal_ne_nil : ∀ v : JValue, specVal v ≠ []
  | .null => by simp [specVal]
  | .bool true => by simp [specVal]
  | .bool false => by simp [specVal]
  | .int _ => by simp [specVal]
  | .str _ => by simp [specVal]
  | .arr xs => by rw [specVal]; exact specWrap_ne_nil _ _ _
  | .obj kvs => by rw [specVal]; exact specWrap_ne_nil _ _ _
  | .numpy rows => by rw [specVal]; exact specWrap_ne_nil _ _ _

theorem specRow_ne_nil (row : List Int) : specRow row ≠ [] := by
  rw [specRow]; exact specWrap_ne_nil _ _ _

theorem specElems_ne_nil : ∀ (xs : List JValue), ∀ b ∈ specElems xs, b ≠ []
  | [], b, hb => by simp [specElems] at hb
  | x :: xs, b, hb => by
      simp only [specElems, List.mem_cons] at hb
      cases hb with
      | inl h => exact h ▸ specVal_ne_nil x
      | inr h => exact specElems_ne_nil xs b h

theorem specEntries_ne_nil : ∀ (kvs : List (JKey × JValue)), ∀ b ∈ specEntries kvs, b ≠ []
  | [], b, hb => by simp [specEntries] at hb
  | (k, v) :: kvs, b, hb => by
      simp only [specEntries, List.mem_cons] at hb
      cases hb with
      | inl h => exact h ▸ prependKey_ne_nil (keyChars k) (specVal v)
      | inr h => exact specEntries_ne_nil kvs b h

/-- The serializer's bracket assembly agrees with the line-based layout:
wrapping absolutized member blocks equals absolutizing the wrapped layout. -/

theorem wrapSeq_spec (d : Nat) (l r : Char) (blocks : List (List (List Char)))
    (hb : ∀ b ∈ blocks, b ≠ []) :
    wrapSeq hrOpts d l r (blocks.map (absJoin (2 * d + 2)))
      = absJoin (2 * d) (specWrap l r blocks) := by
  cases blocks with
  | nil => simp [wrapSeq, specWrap, absJoin]
  | cons b bs =>
      have hsep := sep_join (2 * d + 2) b bs (hb b (by simp)) (fun x hx => hb x (by simp [hx]))
      simp only [List.map_cons] at hsep
      simp only [List.map_cons, wrapSeq, specWrap, absJoin_cons, List.flatMap_append,
        List.flatMap_cons, List.flatMap_nil, flatMap_indentTwo, hrOpts, if_true]
      rw [hsep]
      simp

theorem map_singleton_absJoin (k : Nat) (cs : List (List Char)) :
    (cs.map (fun c => [c])).map (absJoin k) = cs := by
  induction cs with
  | nil => rfl
  | cons c cs ih => simp [absJoin, ih]

/-- One numpy row renders as the absolutized layout of its array-of-integers
lines. -/

theorem rowChars_spec (d : Nat) (row : List Int) :
    rowChars hrOpts d row = absJoin (2 * d) (specRow row) := by
  have h := wrapSeq_spec d '[' ']' ((row.map intChars).map (fun c => [c]))
    (by intro b hb; simp only [List.mem_map] at hb; obtain ⟨c, _, hc⟩ := hb
        rw [← hc]; simp)
  rw [map_singleton_absJoin] at h
  rw [rowChars, specRow]
  exact h

mutual

/-- The human-readable rendering of a value is exactly the specification's
line layout, absolutized at its nesting depth. -/
theorem hrVal_spec (d : Nat) : ∀ v : JValue, hrVal d v = absJoin (2 * d) (specVal v)
  | .null => by simp [hrVal, specVal, absJoin]
  | .bool true => by simp [hrVal, specVal, absJoin]
  | .bool false => by simp [hrVal, specVal, absJoin]
  | .int _ => by simp [hrVal, specVal, absJoin]
  | .str _ => by simp [hrVal, specVal, absJoin]
  | .arr xs => by
      have he := hrElems_spec (d + 1) xs
      have h2 : 2 * (d + 1) = 2 * d + 2 := by omega
      rw [h2] at he
      rw [hrVal, specVal, he]
      exact wrapSeq_spec d '[' ']' (specElems xs) (specElems_ne_nil xs)
  | .obj kvs => by
      have he := hrEntries_spec (d + 1) kvs
      have h2 : 2 * (d + 1) = 2 * d + 2 := by omega
      rw [h2] at he
      rw [hrVal, specVal, he]
      exact wrapSeq_spec d '{' '}' (specEntries kvs) (specEntries_ne_nil kvs)
  | .numpy rows => by
      have hrow : rows.map (rowChars hrOpts (d + 1))
          = (rows.map specRow).map (absJoin (2 * d + 2)) := by
        rw [List.map_map]
        refine List.map_congr_left (fun r _ => ?_)
        have h2 : 2 * (d + 1) = 2 * d + 2 := by omega
        rw [Function.comp_apply, rowChars_spec (d + 1) r, h2]
      rw [hrVal, specVal, numpyChars, hrow]
      refine wrapSeq_spec d '[' ']' (rows.map specRow) ?_
      intro b hb
      simp only [List.mem_map] at hb
      obtain ⟨r, _, hr⟩ := hb
      exact hr ▸ specRow_ne_nil r

/-- Elementwise form of `hrVal_spec` for array members. -/
theorem hrElems_spec (d : Nat) : ∀ xs : List JValue,
    hrElems d xs = (specElems xs).map (absJoin (2 * d))
  | [] => rfl
  | x :: xs => by
      simp only [hrElems, specElems, List.map_cons, hrVal_spec d x, hrElems_spec d xs]

/-- Entrywise form of `hrVal_spec` for mapping members. -/
theorem hrEntries_spec (d : Nat) : ∀ kvs : List (JKey × JValue),
    hrEntries d kvs = (specEntries kvs).map (absJoin (2 * d))
  | [] => rfl
  | (k, v) :: kvs => by
      have hv := hrVal_spec d v
      cases hsv : specVal v with
      | nil => exact absurd hsv (specVal_ne_nil v)
      | cons l ls =>
          rw [hsv] at hv
          simp only [hrEntries, specEntries, List.map_cons, hrEntries_spec d kvs, hv,
            hsv, prependKey, absJoin_cons]
          simp

end

/-! ### The decimal token round-trip -/

theorem digitChar_toNat (k : Nat) (h : k < 10) : (digitChar k).toNat = 48 + k := by
  rw [digitChar]
  interval_cases k <;> decide

theorem isDigitC_digitChar (k : Nat) (h : k < 10) : isDigitC (digitChar k) = true := by
  rw [digitChar]
  interval_cases k <;> decide

theorem natChars_acc (n : Nat) : ∀ acc : List Char, natChars n acc = natChars n [] ++ acc := by
  induction n using Nat.strong_induction_on with
  | _ n ih =>
      intro acc
      by_cases h : n < 10
      · conv_lhs => rw [natChars]
        conv_rhs => rw [natChars]
        simp [h]
      · conv_lhs => rw [natChars]
        conv_rhs => rw [natChars]
        rw [if_neg h, if_neg h,
          ih (n / 10) (Nat.div_lt_self (by omega) (by omega)) (digitChar (n % 10) :: acc),
          ih (n / 10) (Nat.div_lt_self (by omega) (by omega)) [digitChar (n % 10)]]
        simp

theorem natChars_unfold (n : Nat) :
    natChars n [] = (if n < 10 then [] else natChars (n / 10) []) ++ [digitChar (n % 10)] := by
  rw [natChars]
  by_cases h : n < 10
  · simp [h]
  · rw [if_neg h, if_neg h, natChars_acc (n / 10) [digitChar (n % 10)]]

theorem natChars_ne_nil (n : Nat) : natChars n [] ≠ [] := by
  rw [natChars_unfold]
  intro h
  rcases List.append_eq_nil.mp h with ⟨-, h2⟩
  exact List.noConfusion h2

theorem natChars_all_digits (n : Nat) : ∀ c ∈ natChars n [], isDigitC c = true := by
  induction n using Nat.strong_induction_on with
  | _ n ih =>
      rw [natChars_unfold]
      intro c hc
      rcases List.mem_append.mp hc with h | h
      · by_cases h10 : n < 10
        · simp [h10] at h
        · exact ih (n / 10) (Nat.div_lt_self (by omega) (by omega)) c (by simpa [h10] using h)
      · rw [List.mem_singleton.mp h]
        exact isDigitC_digitChar (n % 10) (Nat.mod_lt _ (by omega))

theorem digitsNat_natChars (n : Nat) : digitsNat (natChars n []) = n := by
  induction n using Nat.strong_induction_on with
  | _ n ih =>
      rw [digitsNat, natChars_unfold, List.foldl_append]
      by_cases h : n < 10
      · simp only [if_pos h, List.foldl_nil, List.foldl_cons]
        rw [digitChar_toNat (n % 10) (Nat.mod_lt _ (by omega))]
        omega
      · simp only [if_neg h, List.foldl_cons, List.foldl_nil]
        have := ih (n / 10) (Nat.div_lt_self (by omega) (by omega))
        rw [digitsNat] at this
        rw [this, digitChar_toNat (n % 10) (Nat.mod_lt _ (by omega))]
        omega

theorem natChars_head (n : Nat) : ∃ c t, natChars n [] = c :: t ∧ isDigitC c = true := by
  cases h : natChars n [] with
  | nil => exact absurd h (natChars_ne_nil n)
  | cons c t =>
      exact ⟨c, t, rfl, natChars_all_digits n c (h ▸ List.mem_cons_self c t)⟩

theorem grabDigits_stop {cs : List Char} (h : noDigitHead cs = true) :
    grabDigits cs = ([], cs) := by
  cases cs with
  | nil => rfl
  | cons c t =>
      have hc : isDigitC c = false := by
        simpa [noDigitHead] using h
      simp [grabDigits, hc]

theorem grabDigits_run : ∀ (ds : List Char), (∀ c ∈ ds, isDigitC c = true) →
    ∀ (rest : List Char), noDigitHead rest = true →
    grabDigits (ds ++ rest) = (ds, rest)
  | [], _, rest, hrest => by simpa using grabDigits_stop hrest
  | c :: ds, hds, rest, hrest => by
      have hc : isDigitC c = true := hds c (List.mem_cons_self c ds)
      have ht := grabDigits_run ds (fun x hx => hds x (List.mem_cons_of_mem c hx)) rest hrest
      simp [grabDigits, hc, ht]

theorem isDigitC_ne_minus {c : Char} (h : isDigitC c = true) : c ≠ '-' := by
  intro hc
  rw [hc] at h
  exact absurd h (by decide)

/-- The integer token reader inverts `intChars` whenever the remainder cannot
extend the digit run. -/

theorem parseIntTok_intChars (n : Int) (rest : List Char) (hr : noDigitHead rest = true) :
    parseIntTok (intChars n ++ rest) = some (n, rest) := by
  by_cases hn : n < 0
  · rw [intChars, if_pos hn, List.cons_append, parseIntTok, if_pos rfl,
      grabDigits_run (natChars n.natAbs []) (natChars_all_digits _) rest hr]
    obtain ⟨c, t, hct, -⟩ := natChars_head n.natAbs
    rw [hct]
    dsimp only
    have h1 : digitsNat (c :: t) = n.natAbs := hct ▸ digitsNat_natChars n.natAbs
    rw [h1]
    have h2 : -((n.natAbs : Nat) : Int) = n := by omega
    rw [h2]
  · obtain ⟨c, t, hct, hc⟩ := natChars_head n.natAbs
    rw [intChars, if_neg hn, hct, List.cons_append, parseIntTok,
      if_neg (isDigitC_ne_minus hc)]
    have hrun := grabDigits_run (natChars n.natAbs []) (natChars_all_digits _) rest hr
    rw [hct, List.cons_append] at hrun
    rw [hrun]
    dsimp only
    have h1 : digitsNat (c :: t) = n.natAbs := hct ▸ digitsNat_natChars n.natAbs
    rw [h1]
    have h2 : ((n.natAbs : Nat) : Int) = n := by omega
    rw [h2]

/-! ### The string-escape round-trip -/

theorem hexValC_hexChar (d : Nat) (h : d < 16) : hexValC (hexChar d) = some d := by
  interval_cases d <;> decide

/-- Reading one escaped character undoes the escaping. -/

theorem parseStrBody_esc (c : Char) (acc tail : List Char) :
    parseStrBody acc (escChar c ++ tail) = parseStrBody (c :: acc) tail := by
  rw [escChar]
  by_cases h1 : c = '"'
  · subst h1; rw [if_pos rfl]; rfl
  rw [if_neg h1]
  by_cases h2 : c = '\\'
  · subst h2; rw [if_pos rfl]; rfl
  rw [if_neg h2]
  by_cases h3 : c = '\n'
  · subst h3; rw [if_pos rfl]; rfl
  rw [if_neg h3]
  by_cases h4 : c = '\t'
  · subst h4; rw [if_pos rfl]; rfl
  rw [if_neg h4]
  by_cases h5 : c = '\r'
  · subst h5; rw [if_pos rfl]; rfl
  rw [if_neg h5]
  by_cases h6 : c.toNat = 8
  · rw [if_pos h6]
    show parseStrBody (Char.ofNat 8 :: acc) tail = parseStrBody (c :: acc) tail
    rw [← h6, Char.ofNat_toNat]
  rw [if_neg h6]
  by_cases h7 : c.toNat = 12
  · rw [if_pos h7]
    show parseStrBody (Char.ofNat 12 :: acc) tail = parseStrBody (c :: acc) tail
    rw [← h7, Char.ofNat_toNat]
  rw [if_neg h7]
  by_cases h8 : c.toNat < 32
  · rw [if_pos h8]
    show parseStrBody acc ('\\' :: 'u' :: '0' :: '0' :: hexChar (c.toNat / 16)
        :: hexChar (c.toNat % 16) :: tail) = parseStrBody (c :: acc) tail
    rw [parseStrBody]
    rw [show hexValC '0' = some 0 from rfl,
      hexValC_hexChar (c.toNat / 16) (by omega),
      hexValC_hexChar (c.toNat % 16) (Nat.mod_lt _ (by omega))]
    dsimp only
    have harith : ((0 * 16 + 0) * 16 + c.toNat / 16) * 16 + c.toNat % 16 = c.toNat := by
      omega
    rw [harith, Char.ofNat_toNat]
  · rw [if_neg h8]
    show parseStrBody acc (c :: tail) = parseStrBody (c :: acc) tail
    rw [parseStrBody.eq_def]
    simp [h1, h2]

/-- Reading an escaped character run stops exactly at the closing quote. -/

theorem parseStrBody_flat : ∀ (cs acc tail : List Char),
    parseStrBody acc (cs.flatMap escChar ++ '"' :: tail) = some (acc.reverse ++ cs, tail)
  | [], acc, tail => by simp [parseStrBody]
  | c :: cs, acc, tail => by
      rw [List.flatMap_cons, List.append_assoc, parseStrBody_esc,
        parseStrBody_flat cs (c :: acc) tail]
      simp

/-- The string literal round-trip. -/

theorem parseStrBody_strChars (s : String) (tail : List Char) :
    parseStrBody [] (s.data.flatMap escChar ++ '"' :: tail) = some (s.data, tail) := by
  rw [parseStrBody_flat]
  simp

theorem strChars_append (s : String) (rest : List Char) :
    strChars s ++ rest = '"' :: (s.data.flatMap escChar ++ ('"' :: rest)) := by
  simp [strChars]

/-! ### Whitespace facts -/

theorem dropWs_ws {c : Char} (h : isWsC c = true) (cs : List Char) :
    dropWs (c :: cs) = dropWs cs := by
  simp [dropWs, h]

theorem dropWs_pad (n : Nat) (cs : List Char) : dropWs (pad n ++ cs) = dropWs cs := by
  induction n with
  | zero => simp [pad]
  | succ m ih =>
      have : pad (m + 1) = ' ' :: pad m := by simp [pad, List.replicate_succ]
      rw [this, List.cons_append, dropWs_ws (by decide), ih]

theorem dropWs_not_ws {c : Char} (h : isWsC c = false) (cs : List Char) :
    dropWs (c :: cs) = c :: cs := by
  simp [dropWs, h]

theorem parseVal_lead_nl (fuel : Nat) (k : Nat) (cs : List Char) :
    parseVal fuel ('\n' :: (pad k ++ cs)) = parseVal fuel cs := by
  cases fuel with
  | zero => rfl
  | succ f =>
      rw [parseVal, parseVal, dropWs_ws (by decide), dropWs_pad]

theorem parseElems_lead_nl (fuel : Nat) (k : Nat) (cs : List Char) :
    parseElems fuel ('\n' :: (pad k ++ cs)) = parseElems fuel cs := by
  cases fuel with
  | zero => rfl
  | succ f =>
      rw [parseElems, parseElems, parseVal_lead_nl f k cs]

theorem parseEntries_lead_nl (fuel : Nat) (k : Nat) (cs : List Char) :
    parseEntries fuel ('\n' :: (pad k ++ cs)) = parseEntries fuel cs := by
  cases fuel with
  | zero => rfl
  | succ f =>
      rw [parseEntries, parseEntries, dropWs_ws (by decide), dropWs_pad]

theorem parseVal_lead_sp (fuel : Nat) (cs : List Char) :
    parseVal fuel (' ' :: cs) = parseVal fuel cs := by
  cases fuel with
  | zero => rfl
  | succ f => rw [parseVal, parseVal, dropWs_ws (by decide)]

theorem mVal_pos : ∀ v : JValue, 1 ≤ mVal v
  | .null => le_refl 1
  | .bool _ => le_refl 1
  | .int _ => le_refl 1
  | .str _ => le_refl 1
  | .arr xs => by rw [mVal]; omega
  | .obj kvs => by rw [mVal]; omega
  | .numpy _ => le_refl 1

/-! ### Head shapes of rendered output -/

theorem isDigitC_head_facts {c : Char} (h : isDigitC c = true) :
    isWsC c = false ∧ c ≠ ']' ∧ c ≠ '}' ∧ c ≠ 'n' ∧ c ≠ 't' ∧ c ≠ 'f'
      ∧ c ≠ '"' ∧ c ≠ '[' ∧ c ≠ '{' := by
  obtain ⟨h1, h2⟩ : 48 ≤ c.toNat ∧ c.toNat ≤ 57 := by simpa [isDigitC] using h
  have hne : ∀ x : Char, x.toNat < 48 ∨ 57 < x.toNat → c ≠ x := by
    intro x hx he
    subst he
    omega
  have hws : isWsC c = false := by
    simp only [isWsC, Bool.or_eq_false_iff, decide_eq_false_iff_not]
    exact ⟨⟨⟨hne ' ' (by decide), hne '\n' (by decide)⟩, hne '\t' (by decide)⟩,
      hne '\r' (by decide)⟩
  exact ⟨hws, hne ']' (by decide), hne '}' (by decide), hne 'n' (by decide),
    hne 't' (by decide), hne 'f' (by decide), hne '"' (by decide),
    hne '[' (by decide), hne '{' (by decide)⟩

theorem wrapSeq_head (o : OrjsonOpts) (d : Nat) (l r : Char)
    (items : List (List Char)) : ∃ t, wrapSeq o d l r items = l :: t := by
  cases items with
  | nil => exact ⟨[r], rfl⟩
  | cons b bs =>
      rw [wrapSeq]
      by_cases h : o.indent2
      · rw [if_pos h]; exact ⟨_, rfl⟩
      · rw [if_neg h]; exact ⟨_, rfl⟩

/-- Every rendered value begins with a non-whitespace character that closes
no bracket. -/

theorem hrVal_head (d : Nat) (v : JValue) :
    ∃ c t, hrVal d v = c :: t ∧ isWsC c = false ∧ c ≠ ']' ∧ c ≠ '}' := by
  cases v with
  | null => refine ⟨'n', _, rfl, ?_, ?_, ?_⟩ <;> decide
  | bool b =>
      cases b with
      | false => refine ⟨'f', _, rfl, ?_, ?_, ?_⟩ <;> decide
      | true => refine ⟨'t', _, rfl, ?_, ?_, ?_⟩ <;> decide
  | str s => refine ⟨'"', _, rfl, ?_, ?_, ?_⟩ <;> decide
  | int n =>
      by_cases hn : n < 0
      · exact ⟨'-', _, by rw [hrVal, intChars, if_pos hn], by decide, by decide, by decide⟩
      · obtain ⟨c, t, hct, hc⟩ := natChars_head n.natAbs
        obtain ⟨hws, hrb, hcb, -⟩ := isDigitC_head_facts hc
        exact ⟨c, t, by rw [hrVal, intChars, if_neg hn, hct], hws, hrb, hcb⟩
  | arr xs =>
      obtain ⟨t, ht⟩ := wrapSeq_head hrOpts d '[' ']' (hrElems (d + 1) xs)
      exact ⟨'[', t, by rw [hrVal, ht], by decide, by decide, by decide⟩
  | obj kvs =>
      obtain ⟨t, ht⟩ := wrapSeq_head hrOpts d '{' '}' (hrEntries (d + 1) kvs)
      exact ⟨'{', t, by rw [hrVal, ht], by decide, by decide, by decide⟩
  | numpy rows =>
      obtain ⟨t, ht⟩ := wrapSeq_head hrOpts d '[' ']' (rows.map (rowChars hrOpts (d + 1)))
      exact ⟨'[', t, by rw [hrVal, numpyChars, ht], by decide, by decide, by decide⟩

/-! ### The rendered length dominates the reader's fuel measure -/

theorem hrElems_length (d : Nat) : ∀ xs : List JValue, (hrElems d xs).length = xs.length
  | [] => rfl
  | x :: xs => by simp [hrElems, hrElems_length d xs]

theorem hrEntries_length (d : Nat) : ∀ kvs : List (JKey × JValue),
    (hrEntries d kvs).length = kvs.length
  | [] => rfl
  | (k, v) :: kvs => by simp [hrEntries, hrEntries_length d kvs]

theorem joinIndented_len_ge (k : Nat) (hk : 1 ≤ k) :
    ∀ (b : List Char) (bs : List (List Char)),
    ((b :: bs).map List.length).sum + (b :: bs).length ≤ (joinIndented k (b :: bs)).length
  | b, [] => by
      simp [joinIndented, pad]
      omega
  | b, c :: bs => by
      have ih := joinIndented_len_ge k hk c bs
      simp only [joinIndented, List.map_cons, List.sum_cons, List.length_cons,
        List.length_append, pad, List.length_replicate] at *
      omega

mutual

/-- The reader's fuel measure never exceeds the rendered length. -/
theorem mVal_le_len (d : Nat) : ∀ v : JValue, mVal v ≤ (hrVal d v).length
  | .null => by simp [mVal, hrVal]
  | .bool true => by simp [mVal, hrVal]
  | .bool false => by simp [mVal, hrVal]
  | .int n => by
      have hne : intChars n ≠ [] := by
        rw [intChars]
        by_cases hn : n < 0
        · simp [hn]
        · simp only [if_neg hn]
          exact natChars_ne_nil n.natAbs
      rw [mVal, hrVal]
      exact Nat.one_le_iff_ne_zero.mpr (by simpa using hne)
  | .str s => by simp [mVal, hrVal, strChars]
  | .arr xs => by
      cases xs with
      | nil => simp [mVal, mElems, hrVal, hrElems, wrapSeq]
      | cons x xs =>
          have ih := mElems_le_len (d + 1) (x :: xs)
          have hj := joinIndented_len_ge (2 * d + 2) (by omega)
            (hrVal (d + 1) x) (hrElems (d + 1) xs)
          rw [mVal, hrVal]
          rw [show hrElems (d + 1) (x :: xs) = hrVal (d + 1) x :: hrElems (d + 1) xs from rfl]
            at ih ⊢
          rw [wrapSeq, if_pos (show hrOpts.indent2 = true from rfl)]
          have hl := hrElems_length (d + 1) xs
          simp only [List.length_cons, List.length_append, pad, List.length_replicate] at *
          omega
  | .obj kvs => by
      cases kvs with
      | nil => simp [mVal, mEntries, hrVal, hrEntries, wrapSeq]
      | cons e kvs =>
          have ih := mEntries_le_len (d + 1) (e :: kvs)
          have hj := joinIndented_len_ge (2 * d + 2) (by omega)
            ((keyChars e.1 ++ ':' :: ' ' :: hrVal (d + 1) e.2)) (hrEntries (d + 1) kvs)
          rw [mVal, hrVal]
          have hcons : hrEntries (d + 1) (e :: kvs)
              = (keyChars e.1 ++ ':' :: ' ' :: hrVal (d + 1) e.2) :: hrEntries (d + 1) kvs := by
            obtain ⟨k, v⟩ := e
            rfl
          rw [hcons] at ih ⊢
          rw [wrapSeq, if_pos (show hrOpts.indent2 = true from rfl)]
          have hl := hrEntries_length (d + 1) kvs
          simp only [List.length_cons, List.length_append, pad, List.length_replicate] at *
          omega
  | .numpy rows => by
      obtain ⟨t, ht⟩ := wrapSeq_head hrOpts d '[' ']' (rows.map (rowChars hrOpts (d + 1)))
      rw [mVal, hrVal, numpyChars, ht]
      simp

/-- List form of `mVal_le_len` for elements. -/
theorem mElems_le_len (d : Nat) : ∀ xs : List JValue,
    mElems xs ≤ ((hrElems d xs).map List.length).sum + xs.length
  | [] => by simp [mElems]
  | x :: xs => by
      have h1 := mVal_le_len d x
      have h2 := mElems_le_len d xs
      simp only [mElems, hrElems, List.map_cons, List.sum_cons, List.length_cons]
      omega

/-- List form of `mVal_le_len` for entries. -/
theorem mEntries_le_len (d : Nat) : ∀ kvs : List (JKey × JValue),
    mEntries kvs ≤ ((hrEntries d kvs).map List.length).sum + kvs.length
  | [] => by simp [mEntries]
  | (k, v) :: kvs => by
      have h1 := mVal_le_len d v
      have h2 := mEntries_le_len d kvs
      simp only [mEntries, hrEntries, List.map_cons, List.sum_cons, List.length_cons,
        List.length_append]
      omega

end

theorem noDigitHead_elemsTail (d : Nat) (rest : List Char) (xs : List JValue) :
    noDigitHead (elemsTail d rest xs) = true := by
  cases xs <;> rfl

theorem noDigitHead_entriesTail (d : Nat) (rest : List Char) (kvs : List (JKey × JValue)) :
    noDigitHead (entriesTail d rest kvs) = true := by
  cases kvs with
  | nil => rfl
  | cons e kvs => obtain ⟨k, v⟩ := e; rfl

theorem elems_stream (d : Nat) (rest : List Char) :
    ∀ (x : JValue) (xs : List JValue),
    joinIndented (2 * d + 2) (hrElems (d + 1) (x :: xs))
        ++ ('\n' :: (pad (2 * d) ++ (']' :: rest)))
      = pad (2 * d + 2) ++ (hrVal (d + 1) x ++ elemsTail d rest xs)
  | x, [] => by
      simp [hrElems, joinIndented, elemsTail]
  | x, y :: ys => by
      have ih := elems_stream d rest y ys
      rw [show hrElems (d + 1) (x :: y :: ys)
          = hrVal (d + 1) x :: hrElems (d + 1) (y :: ys) from rfl]
      rw [show hrElems (d + 1) (y :: ys) = hrVal (d + 1) y :: hrElems (d + 1) ys from rfl]
        at ih ⊢
      rw [joinIndented]
      simp only [List.append_assoc, List.cons_append] at ih ⊢
      rw [ih]
      simp [elemsTail]

theorem entries_stream (d : Nat) (rest : List Char) :
    ∀ (k : JKey) (v : JValue) (kvs : List (JKey × JValue)),
    joinIndented (2 * d + 2) (hrEntries (d + 1) ((k, v) :: kvs))
        ++ ('\n' :: (pad (2 * d) ++ ('}' :: rest)))
      = pad (2 * d + 2)
          ++ (keyChars k ++ ':' :: ' ' :: (hrVal (d + 1) v ++ entriesTail d rest kvs))
  | k, v, [] => by
      simp [hrEntries, joinIndented, entriesTail]
  | k, v, (k2, v2) :: kvs => by
      have ih := entries_stream d rest k2 v2 kvs
      rw [show hrEntries (d + 1) ((k, v) :: (k2, v2) :: kvs)
          = (keyChars k ++ ':' :: ' ' :: hrVal (d + 1) v)
              :: hrEntries (d + 1) ((k2, v2) :: kvs) from rfl]
      rw [show hrEntries (d + 1) ((k2, v2) :: kvs)
          = (keyChars k2 ++ ':' :: ' ' :: hrVal (d + 1) v2)
              :: hrEntries (d + 1) kvs from rfl] at ih ⊢
      rw [joinIndented]
      simp only [List.append_assoc, List.cons_append] at ih ⊢
      rw [ih]
      simp [entriesTail]

/-- Rendering a non-empty array, with what follows it, as one stream. -/

theorem hrVal_arr_stream (d : Nat) (x : JValue) (xs : List JValue) (rest : List Char) :
    hrVal d (.arr (x :: xs)) ++ rest
      = '[' :: '\n' :: (pad (2 * d + 2) ++ (hrVal (d + 1) x ++ elemsTail d rest xs)) := by
  rw [hrVal]
  rw [show hrElems (d + 1) (x :: xs) = hrVal (d + 1) x :: hrElems (d + 1) xs from rfl]
  rw [wrapSeq, if_pos (show hrOpts.indent2 = true from rfl)]
  have hs := elems_stream d rest x xs
  rw [show hrElems (d + 1) (x :: xs) = hrVal (d + 1) x :: hrElems (d + 1) xs from rfl] at hs
  simp only [List.cons_append, List.append_assoc, List.nil_append] at hs ⊢
  rw [← hs]

/-- Rendering a non-empty object, with what follows it, as one stream. -/

theorem hrVal_obj_stream (d : Nat) (k : JKey) (v : JValue) (kvs : List (JKey × JValue))
    (rest : List Char) :
    hrVal d (.obj ((k, v) :: kvs)) ++ rest
      = '{' :: '\n' :: (pad (2 * d + 2)
          ++ (keyChars k ++ ':' :: ' ' :: (hrVal (d + 1) v ++ entriesTail d rest kvs))) := by
  rw [hrVal]
  rw [show hrEntries (d + 1) ((k, v) :: kvs)
      = (keyChars k ++ ':' :: ' ' :: hrVal (d + 1) v) :: hrEntries (d + 1) kvs from rfl]
  rw [wrapSeq, if_pos (show hrOpts.indent2 = true from rfl)]
  have hs := entries_stream d rest k v kvs
  rw [show hrEntries (d + 1) ((k, v) :: kvs)
      = (keyChars k ++ ':' :: ' ' :: hrVal (d + 1) v) :: hrEntries (d + 1) kvs from rfl] at hs
  simp only [List.cons_append, List.append_assoc, List.nil_append] at hs ⊢
  rw [← hs]

/-! ### One-step reductions of the value reader -/

theorem parseVal_step_str (f : Nat) (R : List Char) :
    parseVal (f + 1) ('"' :: R)
      = match parseStrBody [] R with
        | some (body, r2) => some (.str (String.mk body), r2)
        | none => none := rfl

theorem parseVal_step_arr (f : Nat) (R : List Char) :
    parseVal (f + 1) ('[' :: R)
      = (match dropWs R with
         | [] => none
         | c :: r2 =>
             if c = ']' then some (.arr [], r2)
             else
               match parseElems f (c :: r2) with
               | some (es, r3) => some (.arr es, r3)
               | none => none) := rfl

theorem parseVal_step_obj (f : Nat) (R : List Char) :
    parseVal (f + 1) ('{' :: R)
      = (match dropWs R with
         | [] => none
         | c :: r2 =>
             if c = '}' then some (.obj [], r2)
             else
               match parseEntries f (c :: r2) with
               | some (kvs, r3) => some (.obj kvs, r3)
               | none => none) := rfl

theorem parseVal_step_minus (f : Nat) (T : List Char) :
    parseVal (f + 1) ('-' :: T)
      = (match parseIntTok ('-' :: T) with
         | some (n, r2) => some (.int n, r2)
         | none => none) := rfl

theorem parseVal_step_digit (f : Nat) (c : Char) (t : List Char) (hc : isDigitC c = true) :
    parseVal (f + 1) (c :: t)
      = (match parseIntTok (c :: t) with
         | some (n, r2) => some (.int n, r2)
         | none => none) := by
  obtain ⟨hws, -, -, hn, ht, hf, hq, hlb, hob⟩ := isDigitC_head_facts hc
  rw [parseVal, dropWs_not_ws hws]
  split
  next r heq => exact absurd (List.cons.inj heq).1 hn
  next r heq => exact absurd (List.cons.inj heq).1 ht
  next r heq => exact absurd (List.cons.inj heq).1 hf
  next r heq => exact absurd (List.cons.inj heq).1 hq
  next r heq => exact absurd (List.cons.inj heq).1 hlb
  next r heq => exact absurd (List.cons.inj heq).1 hob
  next c2 r heq =>
      obtain ⟨h1, h2⟩ := List.cons.inj heq
      subst h1
      subst h2
      rw [if_pos (by simp [hc])]
  next heq => exact List.noConfusion heq

/-! ### The codec round-trip for values the decoder can reproduce -/

mutual

/-- Reading a rendered plain value back recovers it exactly, for any rest
that cannot extend a decimal token. -/
theorem rt_val : ∀ (v : JValue) (d fuel : Nat) (rest : List Char),
    isPlain v = true → mVal v ≤ fuel → noDigitHead rest = true →
    parseVal fuel (hrVal d v ++ rest) = some (v, rest)
  | .null, d, fuel, rest, _, hm, _ => by
      cases fuel with
      | zero => rw [mVal] at hm; omega
      | succ f => rw [hrVal]; rfl
  | .bool true, d, fuel, rest, _, hm, _ => by
      cases fuel with
      | zero => rw [mVal] at hm; omega
      | succ f => rw [hrVal]; rfl
  | .bool false, d, fuel, rest, _, hm, _ => by
      cases fuel with
      | zero => rw [mVal] at hm; omega
      | succ f => rw [hrVal]; rfl
  | .int n, d, fuel, rest, _, hm, hr => by
      cases fuel with
      | zero => rw [mVal] at hm; omega
      | succ f =>
          rw [hrVal]
          have htok := parseIntTok_intChars n rest hr
          by_cases hn : n < 0
          · rw [intChars, if_pos hn] at htok ⊢
            simp only [List.cons_append] at htok ⊢
            rw [parseVal_step_minus, htok]
          · obtain ⟨c, t, hct, hc⟩ := natChars_head n.natAbs
            rw [intChars, if_neg hn, hct] at htok ⊢
            simp only [List.cons_append] at htok ⊢
            rw [parseVal_step_digit f c (t ++ rest) hc, htok]
  | .str s, d, fuel, rest, _, hm, _ => by
      cases fuel with
      | zero => rw [mVal] at hm; omega
      | succ f =>
          rw [hrVal, strChars_append, parseVal_step_str, parseStrBody_strChars]
  | .arr [], d, fuel, rest, _, hm, _ => by
      cases fuel with
      | zero => rw [mVal] at hm; omega
      | succ f =>
          rw [hrVal, show hrElems (d + 1) ([] : List JValue) = [] from rfl, wrapSeq]
          rfl
  | .arr (x :: xs), d, fuel, rest, hp, hm, _ => by
      cases fuel with
      | zero => rw [mVal] at hm; omega
      | succ f =>
          rw [isPlain, plainElems] at hp
          obtain ⟨hpx, hpxs⟩ := Bool.and_eq_true_iff.mp hp
          rw [mVal] at hm
          rw [hrVal_arr_stream, parseVal_step_arr, dropWs_ws (by decide), dropWs_pad]
          obtain ⟨c, t, hct, hws, hrb, -⟩ := hrVal_head (d + 1) x
          have key := rt_elems x xs d f rest hpx hpxs (by omega)
          rw [hct] at key ⊢
          simp only [List.cons_append] at key ⊢
          rw [dropWs_not_ws hws]
          dsimp only
          rw [if_neg hrb, key]
  | .obj [], d, fuel, rest, _, hm, _ => by
      cases fuel with
      | zero => rw [mVal] at hm; omega
      | succ f =>
          rw [hrVal, show hrEntries (d + 1) ([] : List (JKey × JValue)) = [] from rfl, wrapSeq]
          rfl
  | .obj ((k, v) :: kvs), d, fuel, rest, hp, hm, _ => by
      cases fuel with
      | zero => rw [mVal] at hm; omega
      | succ f =>
          have hp2 : plainEntries ((k, v) :: kvs) = true := by rwa [isPlain] at hp
          rw [mVal] at hm
          rw [hrVal_obj_stream, parseVal_step_obj, dropWs_ws (by decide), dropWs_pad]
          have key := rt_entries k v kvs d f rest hp2 (by omega)
          cases k with
          | str s =>
              rw [keyChars, strChars_append] at key ⊢
              rw [dropWs_not_ws (by decide)]
              dsimp only
              rw [if_neg (by decide), key]
          | int m =>
              rw [plainEntries, keyIsStr] at hp2
              simp at hp2
  | .numpy rows, d, fuel, rest, hp, _, _ => by
      rw [isPlain] at hp
      exact absurd hp (by simp)
termination_by v _ _ _ _ _ _ => sizeOf v

/-- Reading the rendered element stream of a non-empty array recovers the
elements and stops after the closing bracket. -/
theorem rt_elems : ∀ (x : JValue) (xs : List JValue) (d fuel : Nat) (rest : List Char),
    isPlain x = true → plainElems xs = true → mElems (x :: xs) ≤ fuel →
    parseElems fuel (hrVal (d + 1) x ++ elemsTail d rest xs) = some (x :: xs, rest)
  | x, xs, d, fuel, rest, hpx, hpxs, hm => by
      cases fuel with
      | zero => rw [mElems] at hm; omega
      | succ f =>
          rw [mElems] at hm
          have hv := rt_val x (d + 1) f (elemsTail d rest xs) hpx
            (by have := mVal_pos x; omega) (noDigitHead_elemsTail d rest xs)
          rw [parseElems, hv]
          dsimp only
          cases xs with
          | nil =>
              rw [elemsTail, dropWs_ws (by decide), dropWs_pad, dropWs_not_ws (by decide)]
              dsimp only
              rw [if_neg (by decide), if_pos rfl]
          | cons y ys =>
              rw [plainElems] at hpxs
              obtain ⟨hpy, hpys⟩ := Bool.and_eq_true_iff.mp hpxs
              rw [elemsTail, dropWs_not_ws (by decide)]
              dsimp only
              rw [if_pos rfl]
              have key := rt_elems y ys d f rest hpy hpys
                (by rw [mElems] at hm ⊢; have := mVal_pos x; omega)
              rw [parseElems_lead_nl, key]
termination_by x xs _ _ _ _ _ _ => 1 + sizeOf x + sizeOf xs

/-- Reading the rendered member stream of a non-empty object recovers the
members and stops after the closing brace. -/
theorem rt_entries : ∀ (k : JKey) (v : JValue) (kvs : List (JKey × JValue))
    (d fuel : Nat) (rest : List Char),
    plainEntries ((k, v) :: kvs) = true → mEntries ((k, v) :: kvs) ≤ fuel →
    parseEntries fuel (keyChars k ++ ':' :: ' ' :: (hrVal (d + 1) v ++ entriesTail d rest kvs))
      = some ((k, v) :: kvs, rest)
  | k, v, [], d, fuel, rest, hp, hm => by
      cases fuel with
      | zero => rw [mEntries] at hm; omega
      | succ f =>
          rw [plainEntries] at hp
          obtain ⟨hp1, -⟩ := Bool.and_eq_true_iff.mp hp
          obtain ⟨hks, hpv⟩ := Bool.and_eq_true_iff.mp hp1
          cases k with
          | int m => rw [keyIsStr] at hks; exact absurd hks (by simp)
          | str s =>
              rw [mEntries] at hm
              rw [keyChars, strChars_append, parseEntries, dropWs_not_ws (by decide)]
              dsimp only
              rw [if_pos rfl, parseStrBody_strChars]
              dsimp only
              rw [dropWs_not_ws (by decide)]
              dsimp only
              rw [if_pos rfl, parseVal_lead_sp]
              have hv := rt_val v (d + 1) f (entriesTail d rest []) hpv
                (by omega) (noDigitHead_entriesTail d rest [])
              rw [hv]
              dsimp only
              rw [entriesTail, dropWs_ws (by decide), dropWs_pad,
                dropWs_not_ws (by decide)]
              dsimp only
              rw [if_neg (by decide), if_pos rfl]
  | k, v, (k2, v2) :: kvs2, d, fuel, rest, hp, hm => by
      cases fuel with
      | zero => rw [mEntries] at hm; omega
      | succ f =>
          rw [plainEntries] at hp
          obtain ⟨hp1, hpkvs⟩ := Bool.and_eq_true_iff.mp hp
          obtain ⟨hks, hpv⟩ := Bool.and_eq_true_iff.mp hp1
          cases k with
          | int m => rw [keyIsStr] at hks; exact absurd hks (by simp)
          | str s =>
              rw [mEntries] at hm
              rw [keyChars, strChars_append, parseEntries, dropWs_not_ws (by decide)]
              dsimp only
              rw [if_pos rfl, parseStrBody_strChars]
              dsimp only
              rw [dropWs_not_ws (by decide)]
              dsimp only
              rw [if_pos rfl, parseVal_lead_sp]
              have hv := rt_val v (d + 1) f (entriesTail d rest ((k2, v2) :: kvs2)) hpv
                (by omega) (noDigitHead_entriesTail d rest ((k2, v2) :: kvs2))
              rw [hv]
              dsimp only
              rw [entriesTail, dropWs_not_ws (by decide)]
              dsimp only
              rw [if_pos rfl, parseEntries_lead_nl]
              have key := rt_entries k2 v2 kvs2 d f rest hpkvs (by omega)
              rw [key]
termination_by _ v kvs _ _ _ _ _ => 1 + sizeOf v + sizeOf kvs

end

theorem escChar_digit {c : Char} (h : isDigitC c = true) : escChar c = [c] := by
  obtain ⟨h1, h2⟩ : 48 ≤ c.toNat ∧ c.toNat ≤ 57 := by simpa [isDigitC] using h
  have hne : ∀ x : Char, x.toNat < 48 ∨ 57 < x.toNat → c ≠ x := by
    intro x hx he
    subst he
    omega
  rw [escChar, if_neg (hne '"' (by decide)), if_neg (hne '\\' (by decide)),
    if_neg (hne '\n' (by decide)), if_neg (hne '\t' (by decide)),
    if_neg (hne '\r' (by decide)), if_neg (by omega : ¬c.toNat = 8),
    if_neg (by omega : ¬c.toNat = 12), if_neg (by omega : ¬c.toNat < 32)]

theorem flatMap_escChar_id : ∀ (cs : List Char), (∀ c ∈ cs, escChar c = [c]) →
    cs.flatMap escChar = cs
  | [], _ => rfl
  | c :: cs, h => by
      rw [List.flatMap_cons, h c (List.mem_cons_self c cs),
        flatMap_escChar_id cs (fun x hx => h x (List.mem_cons_of_mem c hx))]
      rfl

/-- A coerced integer key serializes to the same characters as the integer
key itself: the decimal digits (and sign) need no escaping. -/

theorem keyChars_plainKey : ∀ k : JKey, keyChars (plainKey k) = keyChars k
  | .str _ => rfl
  | .int n => by
      rw [plainKey, keyChars, keyChars, strChars]
      have hall : ∀ c ∈ intChars n, escChar c = [c] := by
        intro c hc
        rw [intChars] at hc
        by_cases hn : n < 0
        · rw [if_pos hn] at hc
          rcases List.mem_cons.mp hc with h | h
          · rw [h]; decide
          · exact escChar_digit (natChars_all_digits _ c h)
        · rw [if_neg hn] at hc
          exact escChar_digit (natChars_all_digits _ c hc)
      rw [show (String.mk (intChars n)).data = intChars n from rfl,
        flatMap_escChar_id (intChars n) hall]

theorem hrElems_map_int (d : Nat) : ∀ r : List Int,
    hrElems d (r.map JValue.int) = r.map intChars
  | [] => rfl
  | n :: r => by
      rw [List.map_cons, List.map_cons, hrElems, hrVal, hrElems_map_int d r]

theorem hrElems_map_row (d : Nat) : ∀ rows : List (List Int),
    hrElems d (rows.map (fun r => JValue.arr (r.map JValue.int)))
      = rows.map (rowChars hrOpts d)
  | [] => rfl
  | r :: rows => by
      rw [List.map_cons, List.map_cons, hrElems, hrVal, hrElems_map_int (d + 1) r,
        hrElems_map_row d rows, rowChars]

mutual

/-- Plainifying does not change the serialized output. -/
theorem hrVal_plainify (d : Nat) : ∀ v : JValue, hrVal d (plainify v) = hrVal d v
  | .null => rfl
  | .bool true => rfl
  | .bool false => rfl
  | .int _ => rfl
  | .str _ => rfl
  | .arr xs => by
      rw [plainify, hrVal, hrVal, hrElems_plainify (d + 1) xs]
  | .obj kvs => by
      rw [plainify, hrVal, hrVal, hrEntries_plainify (d + 1) kvs]
  | .numpy rows => by
      rw [plainify, hrVal, hrVal, numpyChars, hrElems_map_row (d + 1) rows]

/-- Elementwise version of `hrVal_plainify`. -/
theorem hrElems_plainify (d : Nat) : ∀ xs : List JValue,
    hrElems d (plainifyElems xs) = hrElems d xs
  | [] => rfl
  | x :: xs => by
      rw [plainifyElems, hrElems, hrVal_plainify d x, hrElems_plainify d xs, hrElems]

/-- Entrywise version of `hrVal_plainify`. -/
theorem hrEntries_plainify (d : Nat) : ∀ kvs : List (JKey × JValue),
    hrEntries d (plainifyEntries kvs) = hrEntries d kvs
  | [] => rfl
  | (k, v) :: kvs => by
      rw [plainifyEntries, hrEntries, keyChars_plainKey k, hrVal_plainify d v,
        hrEntries_plainify d kvs, hrEntries]

end

theorem plainElems_map_int : ∀ r : List Int, plainElems (r.map JValue.int) = true
  | [] => rfl
  | n :: r => by rw [List.map_cons, plainElems, isPlain, plainElems_map_int r]; rfl

theorem plainElems_map_row : ∀ rows : List (List Int),
    plainElems (rows.map (fun r => JValue.arr (r.map JValue.int))) = true
  | [] => rfl
  | r :: rows => by
      rw [List.map_cons, plainElems, isPlain, plainElems_map_int r,
        plainElems_map_row rows]
      rfl

theorem keyIsStr_plainKey : ∀ k : JKey, keyIsStr (plainKey k) = true
  | .str _ => rfl
  | .int _ => rfl

mutual

/-- The plainified value is plain. -/
theorem isPlain_plainify : ∀ v : JValue, isPlain (plainify v) = true
  | .null => rfl
  | .bool _ => rfl
  | .int _ => rfl
  | .str _ => rfl
  | .arr xs => by rw [plainify, isPlain, plainElems_plainify xs]
  | .obj kvs => by rw [plainify, isPlain, plainEntries_plainify kvs]
  | .numpy rows => by rw [plainify, isPlain, plainElems_map_row rows]

/-- Elementwise version of `isPlain_plainify`. -/
theorem plainElems_plainify : ∀ xs : List JValue, plainElems (plainifyElems xs) = true
  | [] => rfl
  | x :: xs => by
      rw [plainifyElems, plainElems, isPlain_plainify x, plainElems_plainify xs]
      rfl

/-- Entrywise version of `isPlain_plainify`. -/
theorem plainEntries_plainify : ∀ kvs : List (JKey × JValue),
    plainEntries (plainifyEntries kvs) = true
  | [] => rfl
  | (k, v) :: kvs => by
      rw [plainifyEntries, plainEntries, keyIsStr_plainKey k, isPlain_plainify v,
        plainEntries_plainify kvs]
      rfl

end

mutual

/-- On plain values, plainifying is the identity. -/
theorem plainify_of_plain : ∀ v : JValue, isPlain v = true → plainify v = v
  | .null, _ => rfl
  | .bool _, _ => rfl
  | .int _, _ => rfl
  | .str _, _ => rfl
  | .arr xs, h => by
      rw [isPlain] at h
      rw [plainify, plainifyElems_of_plain xs h]
  | .obj kvs, h => by
      rw [isPlain] at h
      rw [plainify, plainifyEntries_of_plain kvs h]
  | .numpy _, h => by rw [isPlain] at h; exact absurd h (by simp)

/-- Elementwise version of `plainify_of_plain`. -/
theorem plainifyElems_of_plain : ∀ xs : List JValue, plainElems xs = true →
    plainifyElems xs = xs
  | [], _ => rfl
  | x :: xs, h => by
      rw [plainElems] at h
      obtain ⟨h1, h2⟩ := Bool.and_eq_true_iff.mp h
      rw [plainifyElems, plainify_of_plain x h1, plainifyElems_of_plain xs h2]

/-- Entrywise version of `plainify_of_plain`. -/
theorem plainifyEntries_of_plain : ∀ kvs : List (JKey × JValue), plainEntries kvs = true →
    plainifyEntries kvs = kvs
  | [], _ => rfl
  | (k, v) :: kvs, h => by
      rw [plainEntries] at h
      obtain ⟨h1, h3⟩ := Bool.and_eq_true_iff.mp h
      obtain ⟨hk, h2⟩ := Bool.and_eq_true_iff.mp h1
      have hkey : plainKey k = k := by
        cases k with
        | str s => rfl
        | int m => rw [keyIsStr] at hk; exact absurd hk (by simp)
      rw [plainifyEntries, hkey, plainify_of_plain v h2, plainifyEntries_of_plain kvs h3]

end

/-! ### Decoding composed with encoding -/

/-- The human-readable encoder succeeds on every value and emits the total
rendering. -/

theorem encode_ok (v : JValue) :
    EnhancedORJSONResponse.encode_to_human_readable v
      = .ok (String.mk (hrVal 0 v)) := by
  rw [EnhancedORJSONResponse.encode_to_human_readable, orjson_dumps, dumpsVal_hr 0 v]
  rfl

/-- Reading back a rendered value yields its plainification. -/

theorem decodeJson_hrVal (v : JValue) :
    decodeJson (String.mk (hrVal 0 v)) = some (plainify v) := by
  rw [decodeJson]
  rw [show (String.mk (hrVal 0 v)).data = hrVal 0 v from rfl]
  have hlen : mVal (plainify v) ≤ (hrVal 0 v).length + 1 := by
    have h := mVal_le_len 0 (plainify v)
    rw [hrVal_plainify 0 v] at h
    omega
  have h := rt_val (plainify v) 0 ((hrVal 0 v).length + 1) [] (isPlain_plainify v) hlen rfl
  rw [hrVal_plainify 0 v, List.append_nil] at h
  rw [h]
  rfl

/-- **Decode after encode is plainification**: decoding the human-readable
encoding of any value gives back the value with integer keys coerced to
decimal strings and numpy matrices turned into nested arrays. -/

theorem decode_encode (v : JValue) :
    decodeEncoded (EnhancedORJSONResponse.encode_to_human_readable v)
      = some (plainify v) := by
  rw [encode_ok]
  show decodeJson (String.mk (hrVal 0 v)) = some (plainify v)
  exact decodeJson_hrVal v

/-! ### Decoding inverts serialization of the models -/

theorem mapM_map_inv {α β : Type} (f : α → β) (g : β → Option α)
    (h : ∀ x, g (f x) = some x) : ∀ l : List α, (l.map f).mapM g = some l
  | [] => rfl
  | x :: xs => by
      rw [List.map_cons, List.mapM_cons, h x, mapM_map_inv f g h xs]
      rfl

theorem asStrList_strList (l : List String) : asStrList (strListToJson l) = some l := by
  rw [strListToJson, asStrList]
  exact mapM_map_inv JValue.str asStr (fun _ => rfl) l

theorem asOptStrList_inv : ∀ x : Option (List String),
    asOptStrList (optStrListToJson x) = some x
  | none => rfl
  | some l => by
      rw [optStrListToJson, strListToJson, asOptStrList,
        mapM_map_inv JValue.str asStr (fun _ => rfl) l]
      rfl

theorem asOptStr_inv : ∀ x : Option String, asOptStr (optStrToJson x) = some x
  | none => rfl
  | some _ => rfl

theorem asOptDict_inv : ∀ x : Option JDict, asOptDict (optDictToJson x) = some x
  | none => rfl
  | some _ => rfl

theorem taskNodeFromJson_inv (t : TaskNodeAPIResponse) :
    taskNodeFromJson (taskNodeToJson t) = some t := by
  rw [taskNodeToJson, taskNodeFromJson]
  rw [asStrList_strList, asStrList_strList, asOptStrList_inv]
  rfl

theorem dataNodeFromJson_inv (dn : DataNodeAPIResponse) :
    dataNodeFromJson (dataNodeToJson dn) = some dn := by
  rw [dataNodeToJson, dataNodeFromJson]
  rw [asStrList_strList, asStrList_strList, asOptStrList_inv, asOptStr_inv,
    asOptStr_inv, asOptDict_inv]
  rfl

theorem taskNodeFromJson_dataNode (dn : DataNodeAPIResponse) :
    taskNodeFromJson (dataNodeToJson dn) = none := by
  rw [dataNodeToJson]
  rfl

theorem nodeFromJson_inv : ∀ n : NodeAPIResponse, nodeFromJson (nodeToJson n) = some n
  | .task t => by
      rw [nodeToJson, nodeFromJson, taskNodeFromJson_inv t]
  | .data d => by
      rw [nodeToJson, nodeFromJson, taskNodeFromJson_dataNode d, dataNodeFromJson_inv d]

theorem edgeFromJson_inv (e : GraphEdgeAPIResponse) :
    edgeFromJson (edgeToJson e) = some e := by
  rw [edgeToJson, edgeFromJson]

theorem namedFromJson_inv (x : NamedEntityAPIResponse) :
    namedFromJson (namedToJson x) = some x := by
  rw [namedToJson, namedFromJson, asOptStr_inv]
  rfl

theorem childFromJson_inv (c : ModularPipelineChildAPIResponse) :
    childFromJson (childToJson c) = some c := by
  rw [childToJson, childFromJson]

theorem treeNodeFromJson_inv (t : ModularPipelinesTreeNodeAPIResponse) :
    treeNodeFromJson (treeNodeToJson t) = some t := by
  rw [treeNodeToJson, treeNodeFromJson]
  rw [asStrList_strList, asStrList_strList,
    mapM_map_inv childToJson childFromJson childFromJson_inv t.children]
  rfl

theorem treeEntryFromJson_inv (p : String × ModularPipelinesTreeNodeAPIResponse) :
    treeEntryFromJson (JKey.str p.1, treeNodeToJson p.2) = some p := by
  obtain ⟨s, t⟩ := p
  rw [treeEntryFromJson, treeNodeFromJson_inv t]
  rfl

/-- Structural decoding inverts the serialization of the aggregate. -/

theorem graphFromJson_inv (g : GraphAPIResponse) :
    graphFromJson (graphToJson g) = some g := by
  rw [graphToJson, graphFromJson]
  rw [mapM_map_inv nodeToJson nodeFromJson nodeFromJson_inv g.nodes,
    mapM_map_inv edgeToJson edgeFromJson edgeFromJson_inv g.edges,
    asStrList_strList,
    mapM_map_inv namedToJson namedFromJson namedFromJson_inv g.tags,
    mapM_map_inv namedToJson namedFromJson namedFromJson_inv g.pipelines,
    mapM_map_inv (fun p => (JKey.str p.1, treeNodeToJson p.2)) treeEntryFromJson
      treeEntryFromJson_inv g.modular_pipelines]
  rfl

/-- The graph-level round-trip for plain responses. -/

theorem decode_encode_graph (g : GraphAPIResponse) (h : graphIsPlain g = true) :
    decodeGraphResponse (EnhancedORJSONResponse.encode_to_human_readable (graphToJson g))
      = some g := by
  rw [graphIsPlain] at h
  rw [encode_ok]
  show (decodeJson (String.mk (hrVal 0 (graphToJson g)))).bind graphFromJson = some g
  rw [decodeJson_hrVal, plainify_of_plain _ h]
  show graphFromJson (graphToJson g) = some g
  exact graphFromJson_inv g

/-! ### Small helper facts and sample values for concrete instances -/

theorem intChars_one : intChars 1 = ['1'] := by
  rw [intChars, if_neg (by omega)]
  rw [show ((1 : Int).natAbs) = 1 from rfl, natChars, if_pos (by omega)]
  decide

theorem plainKey_one : plainKey (JKey.int 1) = JKey.str "1" := by
  rw [plainKey, intChars_one]

theorem string_of_intChars_one : String.mk (intChars 1) = "1" := by
  rw [intChars_one]

/-- Coercing the first key of an object to its decimal string does not change
the human-readable rendering. -/

theorem hrVal_key_coerce (d : Nat) (n : Int) (v : JValue) (kvs : JDict) :
    hrVal d (.obj ((JKey.int n, v) :: kvs))
      = hrVal d (.obj ((JKey.str (String.mk (intChars n)), v) :: kvs)) := by
  have hk : keyChars (JKey.str (String.mk (intChars n))) = keyChars (JKey.int n) := by
    have h := keyChars_plainKey (JKey.int n)
    rwa [plainKey] at h
  rw [hrVal, hrVal]
  rw [show hrEntries (d + 1) ((JKey.str (String.mk (intChars n)), v) :: kvs)
      = (keyChars (JKey.str (String.mk (intChars n))) ++ ':' :: ' ' :: hrVal (d + 1) v)
          :: hrEntries (d + 1) kvs from rfl]
  rw [show hrEntries (d + 1) ((JKey.int n, v) :: kvs)
      = (keyChars (JKey.int n) ++ ':' :: ' ' :: hrVal (d + 1) v)
          :: hrEntries (d + 1) kvs from rfl]
  rw [hk]

/-! ## The claims -/

/-- C1: `get_default_response` uses the index's designated default pipeline
id throughout: it sets `selected_pipeline` to that id, retrieves the nodes,
edges, layers and the modular-pipeline tree all for that same single id, and
composes them with the index's tag list and registered-pipeline list into one
`GraphAPIResponse`. -/

theorem C1_default_response_single_default_pipeline_id (dam : DataAccessManager) :
    (get_default_response dam).selected_pipeline = dam.get_default_selected_pipeline.id
    ∧ (get_default_response dam).nodes
        = dam.get_nodes_for_registered_pipeline ((get_default_response dam).selected_pipeline)
    ∧ (get_default_response dam).edges
        = dam.get_edges_for_registered_pipeline ((get_default_response dam).selected_pipeline)
    ∧ (get_default_response dam).layers
        = dam.get_sorted_layers_for_registered_pipeline
            ((get_default_response dam).selected_pipeline)
    ∧ (get_default_response dam).modular_pipelines
        = dam.create_modular_pipelines_tree_for_registered_pipeline
            ((get_default_response dam).selected_pipeline)
    ∧ (get_default_response dam).tags = dam.tags_as_list
    ∧ (get_default_response dam).pipelines = dam.registered_pipelines_as_list :=
  ⟨rfl, rfl, rfl, rfl, rfl, rfl, rfl⟩

/-- C2: the human-readable encoder succeeds on every value and emits exactly
the line layout whose members sit two spaces deeper than their enclosing
brackets (`specVal`/`unlines`); it coerces an integer mapping key to its
canonical decimal string (same bytes as the already-coerced key); and it
serializes a numpy matrix directly, with the same bytes as the matrix
converted to nested lists. -/

theorem C2_human_readable_encoding_layout :
    (∀ v : JValue,
      EnhancedORJSONResponse.encode_to_human_readable v
        = .ok (String.mk (unlines (specVal v))))
    ∧ (∀ (n : Int) (v : JValue) (kvs : JDict),
        EnhancedORJSONResponse.encode_to_human_readable (.obj ((JKey.int n, v) :: kvs))
          = EnhancedORJSONResponse.encode_to_human_readable
              (.obj ((JKey.str (String.mk (intChars n)), v) :: kvs)))
    ∧ (∀ rows : List (List Int),
        EnhancedORJSONResponse.encode_to_human_readable (.numpy rows)
          = EnhancedORJSONResponse.encode_to_human_readable
              (.arr (rows.map (fun r => .arr (r.map JValue.int))))) := by
  refine ⟨fun v => ?_, fun n v kvs => ?_, fun rows => ?_⟩
  · rw [encode_ok, hrVal_spec 0 v, absJoin_zero]
  · rw [encode_ok, encode_ok, hrVal_key_coerce 0 n v kvs]
  · rw [encode_ok, encode_ok]
    have h := hrVal_plainify 0 (.numpy rows)
    rw [plainify] at h
    rw [h]

/-- C3: encoding is deterministic — equal logical values give byte-identical
output — and mapping entries reach the bytes in exactly the order provided:
decoding the encoding of a string-keyed object returns the entry list in its
original order, not re-sorted. -/

theorem C3_encoding_deterministic_order_preserving :
    (∀ v w : JValue, v = w →
        EnhancedORJSONResponse.encode_to_human_readable v
          = EnhancedORJSONResponse.encode_to_human_readable w)
    ∧ (∀ kvs : List (String × JValue),
        plainEntries (kvs.map (fun p => (JKey.str p.1, p.2))) = true →
        decodeEncoded (EnhancedORJSONResponse.encode_to_human_readable
            (.obj (kvs.map (fun p => (JKey.str p.1, p.2)))))
          = some (.obj (kvs.map (fun p => (JKey.str p.1, p.2))))) := by
  constructor
  · intro v w h
    rw [h]
  · intro kvs h
    rw [decode_encode]
    have hp : isPlain (.obj (kvs.map (fun p => (JKey.str p.1, p.2)))) = true := by
      rw [isPlain]
      exact h
    rw [plainify_of_plain _ hp]

/-- Witness for C3, at the unsorted entry order `"b"` before `"a"`. -/

theorem C3_encoding_deterministic_order_preserving_witness :
    plainEntries ([("b", JValue.null), ("a", JValue.null)].map
        (fun p => (JKey.str p.1, p.2))) = true
    ∧ EnhancedORJSONResponse.encode_to_human_readable (.int 7)
        = EnhancedORJSONResponse.encode_to_human_readable (.int 7)
    ∧ decodeEncoded (EnhancedORJSONResponse.encode_to_human_readable
          (.obj ([("b", JValue.null), ("a", JValue.null)].map
            (fun p => (JKey.str p.1, p.2)))))
        = some (.obj ([("b", JValue.null), ("a", JValue.null)].map
            (fun p => (JKey.str p.1, p.2)))) :=
  ⟨by simp [plainEntries, isPlain, keyIsStr],
   C3_encoding_deterministic_order_preserving.1 (.int 7) (.int 7) rfl,
   C3_encoding_deterministic_order_preserving.2 [("b", JValue.null), ("a", JValue.null)]
     (by simp [plainEntries, isPlain, keyIsStr])⟩

/-- C4 (counterexample): the round trip is not the identity on every
representable response.  A task node's parameters mapping with the integer
key `1` is encoded through key coercion, so decoding returns the response
with key `"1"` instead. -/

theorem C4_roundtrip_counterexample :
    decodeGraphResponse (EnhancedORJSONResponse.encode_to_human_readable
        (graphToJson sampleBadGraph)) ≠ some sampleBadGraph := by
  have hplain : plainify (graphToJson sampleBadGraph) = graphToJson sampleCoercedGraph := by
    simp [sampleBadGraph, sampleCoercedGraph, graphToJson, nodeToJson, taskNodeToJson,
      namedToJson, strListToJson, optStrListToJson, optStrToJson, plainify, plainifyElems,
      plainifyEntries, plainKey_one, plainKey, string_of_intChars_one]
  rw [encode_ok]
  show (decodeJson (String.mk (hrVal 0 (graphToJson sampleBadGraph)))).bind graphFromJson
      ≠ some sampleBadGraph
  rw [decodeJson_hrVal, hplain]
  show graphFromJson (graphToJson sampleCoercedGraph) ≠ some sampleBadGraph
  rw [graphFromJson_inv]
  intro h
  rw [Option.some.injEq] at h
  simp [sampleCoercedGraph, sampleBadGraph] at h

/-- C4 (amended): for every representable `GraphAPIResponse` all of whose
mapping keys are strings and which contains no numpy values (`graphIsPlain`),
decoding the encoder's output yields the response back. -/

theorem C4_roundtrip_amended (g : GraphAPIResponse) (h : graphIsPlain g = true) :
    decodeGraphResponse (EnhancedORJSONResponse.encode_to_human_readable (graphToJson g))
      = some g :=
  decode_encode_graph g h

/-- Witness for the amended C4, at a compound plain response. -/

theorem C4_roundtrip_amended_witness :
    graphIsPlain samplePlainGraph = true
    ∧ decodeGraphResponse (EnhancedORJSONResponse.encode_to_human_readable
        (graphToJson samplePlainGraph)) = some samplePlainGraph :=
  ⟨by simp [graphIsPlain, samplePlainGraph, graphToJson, nodeToJson, taskNodeToJson,
      dataNodeToJson, edgeToJson, namedToJson, childToJson, treeNodeToJson, strListToJson,
      optStrListToJson, optStrToJson, optDictToJson, isPlain, plainElems, plainEntries,
      keyIsStr],
   C4_roundtrip_amended samplePlainGraph
     (by simp [graphIsPlain, samplePlainGraph, graphToJson, nodeToJson, taskNodeToJson,
       dataNodeToJson, edgeToJson, namedToJson, childToJson, treeNodeToJson, strListToJson,
       optStrListToJson, optStrToJson, optDictToJson, isPlain, plainElems, plainEntries,
       keyIsStr])⟩

/-- C5: when the selected pipeline id is absent from the index, assembly
fails with the not-found error and never returns a normal response (so in
particular never one with empty nodes). -/

theorem C5_unknown_pipeline_id_not_found (dam : DataAccessManager) (pipeline_id : String)
    (h : (dam.registered_pipelines_as_list.map NamedEntityAPIResponse.id).contains
        pipeline_id = false) :
    get_selected_pipeline_response dam pipeline_id
        = .error { message := "Pipeline not found" }
    ∧ ∀ g : GraphAPIResponse, get_selected_pipeline_response dam pipeline_id ≠ .ok g := by
  rw [get_selected_pipeline_response,
    if_neg (by intro hc; rw [h] at hc; exact Bool.noConfusion hc)]
  exact ⟨rfl, fun g hg => Except.noConfusion hg⟩

/-- Witness for C5: the id `"q"` is not among the registered pipelines. -/

theorem C5_unknown_pipeline_id_not_found_witness :
    (sampleDam.registered_pipelines_as_list.map NamedEntityAPIResponse.id).contains "q"
        = false
    ∧ get_selected_pipeline_response sampleDam "q"
        = .error { message := "Pipeline not found" } :=
  ⟨by decide, (C5_unknown_pipeline_id_not_found sampleDam "q" (by decide)).1⟩

/-- C6: at the flat-node level every node is exactly one of the two variants
task/data — a parameters node is representable as a data-shaped record with
`type = "parameters"` — while the per-node metadata union has four mutually
exclusive variants (task, data, transcoded-data, parameters). -/

theorem C6_flat_union_two_variants_metadata_union_four :
    (∀ n : NodeAPIResponse,
        ((∃ t, n = .task t) ∧ ¬∃ d, n = .data d)
        ∨ ((∃ d, n = .data d) ∧ ¬∃ t, n = .task t))
    ∧ (∃ d : DataNodeAPIResponse, d.type = "parameters")
    ∧ (∀ m : NodeMetadataAPIResponse,
        ((∃ a, m = .task a) ∧ (¬∃ b, m = .data b) ∧ (¬∃ c, m = .transcodedData c)
          ∧ ¬∃ p, m = .parameters p)
        ∨ ((∃ b, m = .data b) ∧ (¬∃ a, m = .task a) ∧ (¬∃ c, m = .transcodedData c)
          ∧ ¬∃ p, m = .parameters p)
        ∨ ((∃ c, m = .transcodedData c) ∧ (¬∃ a, m = .task a) ∧ (¬∃ b, m = .data b)
          ∧ ¬∃ p, m = .parameters p)
        ∨ ((∃ p, m = .parameters p) ∧ (¬∃ a, m = .task a) ∧ (¬∃ b, m = .data b)
          ∧ ¬∃ c, m = .transcodedData c)) := by
  refine ⟨fun n => ?_,
    ⟨{ id := "prm", name := "prm", tags := [], pipelines := [], type := "parameters",
       modular_pipelines := none, layer := none, dataset_type := none, stats := none },
     rfl⟩,
    fun m => ?_⟩
  · cases n with
    | task t => exact Or.inl ⟨⟨t, rfl⟩, fun ⟨d, hd⟩ => NodeAPIResponse.noConfusion hd⟩
    | data d => exact Or.inr ⟨⟨d, rfl⟩, fun ⟨t, ht⟩ => NodeAPIResponse.noConfusion ht⟩
  · cases m with
    | task a =>
        exact Or.inl ⟨⟨a, rfl⟩, fun ⟨b, hb⟩ => NodeMetadataAPIResponse.noConfusion hb,
          fun ⟨c, hc⟩ => NodeMetadataAPIResponse.noConfusion hc,
          fun ⟨p, hp⟩ => NodeMetadataAPIResponse.noConfusion hp⟩
    | data b =>
        exact Or.inr (Or.inl ⟨⟨b, rfl⟩,
          fun ⟨a, ha⟩ => NodeMetadataAPIResponse.noConfusion ha,
          fun ⟨c, hc⟩ => NodeMetadataAPIResponse.noConfusion hc,
          fun ⟨p, hp⟩ => NodeMetadataAPIResponse.noConfusion hp⟩)
    | transcodedData c =>
        exact Or.inr (Or.inr (Or.inl ⟨⟨c, rfl⟩,
          fun ⟨a, ha⟩ => NodeMetadataAPIResponse.noConfusion ha,
          fun ⟨b, hb⟩ => NodeMetadataAPIResponse.noConfusion hb,
          fun ⟨p, hp⟩ => NodeMetadataAPIResponse.noConfusion hp⟩))
    | parameters p =>
        exact Or.inr (Or.inr (Or.inr ⟨⟨p, rfl⟩,
          fun ⟨a, ha⟩ => NodeMetadataAPIResponse.noConfusion ha,
          fun ⟨b, hb⟩ => NodeMetadataAPIResponse.noConfusion hb,
          fun ⟨c, hc⟩ => NodeMetadataAPIResponse.noConfusion hc⟩))

/-- Witness for C6, at a concrete data node. -/
theorem C6_flat_union_two_variants_metadata_union_four_witness :
    ((∃ t, NodeAPIResponse.data sampleBareDataNode = .task t)
      ∧ ¬∃ d, NodeAPIResponse.data sampleBareDataNode = .data d)
    ∨ ((∃ d, NodeAPIResponse.data sampleBareDataNode = .data d)
      ∧ ¬∃ t, NodeAPIResponse.data sampleBareDataNode = .task t) :=
  C6_flat_union_two_variants_metadata_union_four.1 (NodeAPIResponse.data sampleBareDataNode)

/-- C7: every serialized flat node record is structurally total — both
variants emit the six common fields, the task variant adds `parameters`, the
data variant adds `layer`, `dataset_type` and `stats` — and a per-kind field
whose value is absent is emitted as null, never omitted. -/

theorem C7_node_records_structurally_total (n : NodeAPIResponse) :
    (∀ t, n = .task t → objKeys (nodeToJson n)
        = ["id", "name", "tags", "pipelines", "type", "modular_pipelines", "parameters"])
    ∧ (∀ d, n = .data d → objKeys (nodeToJson n)
        = ["id", "name", "tags", "pipelines", "type", "modular_pipelines", "layer",
           "dataset_type", "stats"])
    ∧ (∀ k, k ∈ ["id", "name", "tags", "pipelines", "type", "modular_pipelines"] →
        lookupKey (nodeToJson n) k ≠ none)
    ∧ (∀ d, n = .data d → d.layer = none →
        lookupKey (nodeToJson n) "layer" = some .null)
    ∧ (∀ d, n = .data d → d.dataset_type = none →
        lookupKey (nodeToJson n) "dataset_type" = some .null)
    ∧ (∀ d, n = .data d → d.stats = none →
        lookupKey (nodeToJson n) "stats" = some .null)
    ∧ (∀ t, n = .task t → t.modular_pipelines = none →
        lookupKey (nodeToJson n) "modular_pipelines" = some .null)
    ∧ (∀ d, n = .data d → d.modular_pipelines = none →
        lookupKey (nodeToJson n) "modular_pipelines" = some .null) := by
  cases n with
  | task t =>
      refine ⟨fun t2 ht => rfl, fun d hd => NodeAPIResponse.noConfusion hd,
        fun k hk => ?_, fun d hd => NodeAPIResponse.noConfusion hd,
        fun d hd => NodeAPIResponse.noConfusion hd,
        fun d hd => NodeAPIResponse.noConfusion hd, fun t2 ht hmp => ?_,
        fun d hd => NodeAPIResponse.noConfusion hd⟩
      · simp only [List.mem_cons, List.not_mem_nil, or_false] at hk
        rcases hk with rfl | rfl | rfl | rfl | rfl | rfl <;>
          exact fun h => Option.noConfusion h
      · obtain rfl : t = t2 := by injection ht
        rw [nodeToJson, taskNodeToJson, hmp]
        rfl
  | data d =>
      refine ⟨fun t ht => NodeAPIResponse.noConfusion ht, fun d2 hd => rfl,
        fun k hk => ?_, fun d2 hd hl => ?_, fun d2 hd hl => ?_, fun d2 hd hl => ?_,
        fun t ht => NodeAPIResponse.noConfusion ht, fun d2 hd hl => ?_⟩
      · simp only [List.mem_cons, List.not_mem_nil, or_false] at hk
        rcases hk with rfl | rfl | rfl | rfl | rfl | rfl <;>
          exact fun h => Option.noConfusion h
      · obtain rfl : d = d2 := by injection hd
        rw [nodeToJson, dataNodeToJson, hl]
        rfl
      · obtain rfl : d = d2 := by injection hd
        rw [nodeToJson, dataNodeToJson, hl]
        rfl
      · obtain rfl : d = d2 := by injection hd
        rw [nodeToJson, dataNodeToJson, hl]
        rfl
      · obtain rfl : d = d2 := by injection hd
        rw [nodeToJson, dataNodeToJson, hl]
        rfl

/-- Witness for C7, at a data node with no recorded layer, dataset type or
stats: all per-kind fields appear with null values. -/

theorem C7_node_records_structurally_total_witness :
    objKeys (nodeToJson (.data sampleBareDataNode))
        = ["id", "name", "tags", "pipelines", "type", "modular_pipelines", "layer",
           "dataset_type", "stats"]
    ∧ lookupKey (nodeToJson (.data sampleBareDataNode)) "layer" = some .null
    ∧ lookupKey (nodeToJson (.data sampleBareDataNode)) "dataset_type" = some .null
    ∧ lookupKey (nodeToJson (.data sampleBareDataNode)) "stats" = some .null
    ∧ lookupKey (nodeToJson (.data sampleBareDataNode)) "modular_pipelines" = some .null :=
  ⟨(C7_node_records_structurally_total (.data sampleBareDataNode)).2.1
      sampleBareDataNode rfl,
   (C7_node_records_structurally_total (.data sampleBareDataNode)).2.2.2.1
      sampleBareDataNode rfl rfl,
   (C7_node_records_structurally_total (.data sampleBareDataNode)).2.2.2.2.1
      sampleBareDataNode rfl rfl,
   (C7_node_records_structurally_total (.data sampleBareDataNode)).2.2.2.2.2.1
      sampleBareDataNode rfl rfl,
   (C7_node_records_structurally_total (.data sampleBareDataNode)).2.2.2.2.2.2.2
      sampleBareDataNode rfl rfl⟩

/-- C8: every dataset registered under more than one concrete read-back type
gets the transcoded-data metadata variant, whose `transcoded_types` is
exactly the full list of registered types (so of length 2 for two of them),
and never the plain data variant. -/

theorem C8_transcoded_dataset_metadata (ds : DataSetRegistration)
    (h : 2 ≤ ds.registered_types.length) :
    (∃ t, get_dataset_metadata ds = .transcodedData t
        ∧ t.transcoded_types = ds.registered_types)
    ∧ ∀ d, get_dataset_metadata ds ≠ .data d := by
  rw [get_dataset_metadata, if_pos h]
  exact ⟨⟨_, rfl, rfl⟩, fun d hd => NodeMetadataAPIResponse.noConfusion hd⟩

/-- Witness for C8, at a dataset with two registered read-back types: the
transcoded variant carries both, so `transcoded_types` has length 2. -/

theorem C8_transcoded_dataset_metadata_witness :
    2 ≤ sampleTranscoded.registered_types.length
    ∧ ((∃ t, get_dataset_metadata sampleTranscoded = .transcodedData t
          ∧ t.transcoded_types = sampleTranscoded.registered_types)
        ∧ ∀ d, get_dataset_metadata sampleTranscoded ≠ .data d)
    ∧ sampleTranscoded.registered_types.length = 2 :=
  ⟨by decide, C8_transcoded_dataset_metadata sampleTranscoded (by decide), rfl⟩

/-- C9: the aggregate response consists of exactly the seven fields `nodes`,
`edges`, `layers`, `tags`, `pipelines`, `modular_pipelines` and
`selected_pipeline`: they jointly determine the response and can be chosen
independently. -/

theorem C9_graph_response_exact_fields :
    (∀ r s : GraphAPIResponse, r.nodes = s.nodes → r.edges = s.edges →
      r.layers = s.layers → r.tags = s.tags → r.pipelines = s.pipelines →
      r.modular_pipelines = s.modular_pipelines →
      r.selected_pipeline = s.selected_pipeline → r = s)
    ∧ (∀ (ns : List NodeAPIResponse) (es : List GraphEdgeAPIResponse) (ls : List String)
        (ts ps : List NamedEntityAPIResponse) (mp : ModularPipelinesTreeAPIResponse)
        (sp : String),
        ∃ r : GraphAPIResponse, r.nodes = ns ∧ r.edges = es ∧ r.layers = ls ∧ r.tags = ts
          ∧ r.pipelines = ps ∧ r.modular_pipelines = mp ∧ r.selected_pipeline = sp) := by
  constructor
  · intro r s h1 h2 h3 h4 h5 h6 h7
    cases r
    cases s
    simp_all
  · intro ns es ls ts ps mp sp
    exact ⟨⟨ns, es, ls, ts, ps, mp, sp⟩, rfl, rfl, rfl, rfl, rfl, rfl, rfl⟩

/-- Witness for C9, at the empty response. -/

theorem C9_graph_response_exact_fields_witness :
    (⟨[], [], [], [], [], [], "p"⟩ : GraphAPIResponse)
        = (⟨[], [], [], [], [], [], "p"⟩ : GraphAPIResponse)
    ∧ ∃ r : GraphAPIResponse, r.nodes = [] ∧ r.edges = [] ∧ r.layers = [] ∧ r.tags = []
        ∧ r.pipelines = [] ∧ r.modular_pipelines = [] ∧ r.selected_pipeline = "p" :=
  ⟨C9_graph_response_exact_fields.1 ⟨[], [], [], [], [], [], "p"⟩
      ⟨[], [], [], [], [], [], "p"⟩ rfl rfl rfl rfl rfl rfl rfl,
   C9_graph_response_exact_fields.2 [] [] [] [] [] [] "p"⟩

/-- C10: constructing task-node metadata fails with pydantic's
"field required" error whenever `inputs` or `outputs` is missing, while
`code`, `filepath`, `parameters` and `run_command` may be absent and then
default to null. -/

theorem C10_task_metadata_required_and_optional_fields :
    (∀ (code filepath : Option String) (parameters : Option JDict)
        (inputs outputs : Option (List String)) (run_command : Option String),
        inputs = none ∨ outputs = none →
        TaskNodeMetadataAPIResponse.validate code filepath parameters inputs outputs
            run_command = .error "field required")
    ∧ (∀ i o : List String,
        TaskNodeMetadataAPIResponse.validate none none none (some i) (some o) none
          = .ok { code := none, filepath := none, parameters := none, inputs := i,
                  outputs := o, run_command := none }) := by
  constructor
  · intro code filepath parameters inputs outputs run_command h
    rcases h with h | h
    · subst h
      cases outputs <;> rfl
    · subst h
      cases inputs <;> rfl
  · intro i o
    rfl

/-- Witness for C10: missing `outputs` is rejected; provided `inputs` and
`outputs` with every optional field absent construct the record with null
defaults. -/

theorem C10_task_metadata_required_and_optional_fields_witness :
    ((none : Option (List String)) = none ∨ (some (["x"] : List String)) = none)
    ∧ TaskNodeMetadataAPIResponse.validate none none none none (some ["x"]) none
        = .error "field required"
    ∧ TaskNodeMetadataAPIResponse.validate none none none (some ["a"]) (some []) none
        = .ok { code := none, filepath := none, parameters := none, inputs := ["a"],
                outputs := [], run_command := none } :=
  ⟨Or.inl rfl,
   C10_task_metadata_required_and_optional_fields.1 none none none none (some ["x"]) none
     (Or.inl rfl),
   C10_task_metadata_required_and_optional_fields.2 ["a"] []⟩

end KedroViz

